import Mathlib

/-!
Verification of the pydantic-resolve resolution engine
(`src/pydantic_resolve/resolver.py`) against its specification.

The engine is shallowly embedded: Python objects live in an explicit
store (heap) of `Object`s addressed by `Nat` references; the per-call
Resolver state (`contextvars` loader cache, loader-filters table,
`ensure_type` flag) is an explicit `EngState` threaded through every
call; `asyncio` awaitables are modelled as nested `RVal` wrappers that
the engine unwraps one layer per `await`; `asyncio.gather` is modelled
as the sequential completion of every spawned task (one admissible
interleaving of the single-threaded cooperative scheduler, with the
join/barrier semantics of `gather`: all tasks complete before the
enclosing level proceeds, the first failure aborts).  Exceptions are
modelled with `Except`, keeping the state and the event trace that had
accumulated when the exception was raised (Python side effects before a
`raise` persist).  Recursion through arbitrary resolver-returned values
is bounded by explicit fuel; running out of fuel is a distinguished
error no theorem below ever treats as normal termination.

Loader instances are given identity by a model-level allocation counter
`nextId` (each `Base()` / `DataLoader(batch_load_fn=...)` construction
takes a fresh id), so "the same instance" and "a new instance" are
expressible.
-/

set_option maxHeartbeats 1000000

namespace PR

/-- A Python value as seen by the engine: plain scalars, lists/tuples,
and references into the object store. -/
inductive PyVal : Type
  | none
  | pybool (b : Bool)
  | int (n : Int)
  | str (s : String)
  | obj (ref : Nat)
  | pylist (elems : List PyVal)
  | pytuple (elems : List PyVal)

/-- A resolver's return value: a concrete value, or an awaitable
(coroutine / future) that resolves to another `RVal`
(`while iscoroutine(val) or asyncio.isfuture(val): val = await val`). -/
inductive RVal : Type
  | ret (v : PyVal)
  | coro (r : RVal)
  | future (r : RVal)

/-- A batching-unit definition (`v.default.dependency` in
`exec_method`): a DataLoader subclass (`isClass = true`, with its
declared configuration attributes from `get_class_field_annotations`)
or a bare `batch_load_fn` function.  `module`/`name` are
`__module__`/`__name__`. -/
structure LoaderDef : Type where
  module : String
  name : String
  isClass : Bool
  classFields : List String
deriving DecidableEq

/-- A provisioned loader instance.  `id` is the model's allocation
identity (one fresh id per construction); `fields` are the
configuration attributes assigned onto the instance. -/
structure LoaderInst : Type where
  id : Nat
  defn : LoaderDef
  fields : List (String × PyVal)

/-- One parameter of a resolver function.  `dep = some d` models a
default of `Depends(dependency=d)` (i.e. `LoaderDepend(d)`). -/
structure Param : Type where
  name : String
  dep : Option LoaderDef

/-- A resolver method: its signature parameters, its
`__annotations__` keys, and its body, which receives the provisioned
loader instances (in declaration order) and returns a possibly
awaitable value. -/
structure Method : Type where
  params : List Param
  annots : List String
  body : List LoaderInst → RVal

/-- A post-process hook (`post_*` method): calling it mutates its own
object's attributes by the listed assignments and returns `ret`, which
the engine discards.  Hooks take no parameters by construction,
matching `post_method()` being called with no arguments. -/
structure Hook : Type where
  muts : List (String × PyVal)
  ret : RVal

/-- A Python object as the engine sees it: data attributes, `resolve_*`
methods and `post_*` methods, each in enumeration order. -/
structure Object : Type where
  attrs : List (String × PyVal)
  resolvers : List (String × Method)
  posts : List (String × Hook)

/-- The object store (heap); `PyVal.obj r` refers to `store[r]`. -/
abbrev Store := List Object

/-- The exceptions raised by the engine (`exceptions.py` is not under
src; names follow the import in `resolver.py`), plus the Python
`AttributeError` of a failed `__getattribute__`, plus the model's
out-of-fuel marker. -/
inductive Err : Type
  | ResolverTargetAttrNotFound (msg : String)
  | LoaderFieldNotProvidedError (msg : String)
  | MissingAnnotationError (msg : String)
  | AttributeError (msg : String)
  | OutOfFuel
deriving DecidableEq

/-- Observable events of one run, in order: loader-instance
construction, resolver invocation (`method(**params)`), one `await`
iteration of the unwrap loop, completion of one field (after its
subtree resolved and the value was written back), and a hook call. -/
inductive Event : Type
  | loaderCreated (key : String) (id : Nat)
  | resolverInvoked (field : String)
  | awaited
  | fieldResolved (ref : Nat) (field : String)
  | hookCalled (ref : Nat) (hook : String)
deriving DecidableEq

/-- The per-invocation Resolver state: the loader-instance cache
(`self.ctx`), the configuration table (`self.loader_filters_ctx`,
keyed by the loader class), the strict-typing flag, and the model's
instance-identity allocator. -/
structure EngState : Type where
  ctx : List (String × LoaderInst)
  loader_filters : List (LoaderDef × List (String × PyVal))
  ensure_type : Bool
  nextId : Nat

/-- `Resolver.__init__`: a fresh empty instance cache and the supplied
configuration table (`loader_filters or {}`). -/
def Resolver.init (lf : List (LoaderDef × List (String × PyVal)))
    (et : Bool) (nid : Nat) : EngState :=
  { ctx := [], loader_filters := lf, ensure_type := et, nextId := nid }

/-! ## Small helpers (association-list operations and `str.replace`) -/

/-- First-match association-list lookup (Python `dict.get`). -/
def lookupStr {α : Type} : List (String × α) → String → Option α
  | [], _ => Option.none
  | (k', v) :: rest, k => if k' = k then some v else lookupStr rest k

/-- Association-list lookup keyed by a loader class
(`filter_config_provider.get(Base, {})`). -/
def lookupCls {α : Type} : List (LoaderDef × α) → LoaderDef → Option α
  | [], _ => Option.none
  | (k', v) :: rest, k => if k' = k then some v else lookupCls rest k

/-- `setattr`: replace the first binding of the key, else append. -/
def setAttrList : List (String × PyVal) → String → PyVal → List (String × PyVal)
  | [], k, v => [(k, v)]
  | (k', v') :: rest, k, v =>
    if k' = k then (k, v) :: rest else (k', v') :: setAttrList rest k v

/-- Heap read. -/
def getObj : Store → Nat → Option Object
  | [], _ => Option.none
  | o :: _, 0 => some o
  | _ :: rest, r + 1 => getObj rest r

/-- Heap write (no-op out of range, which never occurs in a run). -/
def setObj : Store → Nat → Object → Store
  | [], _, _ => []
  | _ :: rest, 0, o => o :: rest
  | x :: rest, r + 1, o => x :: setObj rest r o

/-- Is `p` a prefix of `l` (on characters)? -/
def isPre : List Char → List Char → Bool
  | [], _ => true
  | _ :: _, [] => false
  | p :: ps, c :: cs => p == c && isPre ps cs

/-- Remove every (non-overlapping, left-to-right) occurrence of the
nonempty pattern, with fuel bounding the scan. -/
def removeAllAux (pat : List Char) : Nat → List Char → List Char
  | 0, s => s
  | _ + 1, [] => []
  | n + 1, c :: rest =>
    if pat ≠ [] ∧ isPre pat (c :: rest) = true then
      removeAllAux pat n (List.drop (pat.length - 1) rest)
    else
      c :: removeAllAux pat n rest

/-- Python `s.replace(pat, '')`: removes every occurrence of `pat`
(not only a leading one). -/
def pyReplace (s pat : String) : String :=
  ⟨removeAllAux pat.data s.data.length s.data⟩

/-! ## Constants and discovery collaborators not under src -/

/-- Modelled from the spec: `constant.py` is not under src; the
resolver-naming prefix implied by the spec's naming convention and the
tests (`resolve_scores` targets `scores`). -/
def PREFIX : String := "resolve_"

/-- Modelled from the spec: `constant.py` is not under src; the
post-process hook prefix implied by the naming convention. -/
def POST_PREFIX : String := "post_"

/-- Modelled from the spec: `core.is_acceptable_type` (type-discovery
collaborator, §6): classifies exactly the typed-record objects
(pydantic / dataclass instances, modelled as store references) as
Resolvable Objects. -/
def is_acceptable_type : PyVal → Bool
  | .obj _ => true
  | _ => false

/-- Modelled from the spec: `core.iter_over_object_resolvers`
enumerates the object's resolver-field identifiers in enumeration
order. -/
def iter_over_object_resolvers (o : Object) : List String :=
  o.resolvers.map (fun x => x.1)

/-- Modelled from the spec: `core.iter_over_object_post_methods`
enumerates the object's post-process hook identifiers in enumeration
order. -/
def iter_over_object_post_methods (o : Object) : List String :=
  o.posts.map (fun x => x.1)

/-- Python `hasattr`: data attributes and methods alike. -/
def pyHasattr (o : Object) (n : String) : Bool :=
  (lookupStr o.attrs n).isSome || (lookupStr o.resolvers n).isSome
    || (lookupStr o.posts n).isSome

/-! ## The Batching-Unit Provider (`Resolver.exec_method`) -/

/-- The cache key `f'{dependency.__module__}.{dependency.__name__}'`. -/
def cacheKey (d : LoaderDef) : String := d.module ++ "." ++ d.name

/-- The configuration-injection loop of `exec_method`'s class branch:
`for field in get_class_field_annotations(Base): value =
filter_config[field]; setattr(loader, field, value)`, raising
`LoaderFieldNotProvidedError` at the first missing field. -/
def assignFields (key : String) (cfg : List (String × PyVal)) :
    LoaderInst → List String → LoaderInst × Except Err Unit
  | inst, [] => (inst, Except.ok ())
  | inst, f :: fs =>
    match lookupStr cfg f with
    | some v =>
      assignFields key cfg { inst with fields := setAttrList inst.fields f v } fs
    | Option.none =>
      (inst, Except.error (Err.LoaderFieldNotProvidedError
        (key ++ "." ++ f ++ " not found in Resolver()")))

/-- The parameter loop of `exec_method`: for each `Depends` default,
compute the cache key, reuse a cached instance on a hit, otherwise
construct one (class: `Base()` then configuration injection; function:
`DataLoader(batch_load_fn=Base)`), cache it, and bind it.  Returns the
final state, the event trace, and on success the bound parameters. -/
def execParams (st : EngState) :
    List Param → EngState × List Event × Except Err (List (String × LoaderInst))
  | [] => (st, [], Except.ok [])
  | p :: ps =>
    match p.dep with
    | Option.none => execParams st ps
    | Option.some d =>
      match lookupStr st.ctx (cacheKey d) with
      | some hit =>
        match execParams st ps with
        | (st', ev, Except.ok binds) => (st', ev, Except.ok ((p.name, hit) :: binds))
        | (st', ev, Except.error e) => (st', ev, Except.error e)
      | Option.none =>
        if d.isClass then
          match assignFields (cacheKey d) ((lookupCls st.loader_filters d).getD [])
              ⟨st.nextId, d, []⟩ d.classFields with
          | (_, Except.error e) =>
            ({ st with nextId := st.nextId + 1 },
             [Event.loaderCreated (cacheKey d) st.nextId], Except.error e)
          | (inst, Except.ok _) =>
            match execParams { st with ctx := (cacheKey d, inst) :: st.ctx,
                                       nextId := st.nextId + 1 } ps with
            | (st', ev, Except.ok binds) =>
              (st', Event.loaderCreated (cacheKey d) st.nextId :: ev,
               Except.ok ((p.name, inst) :: binds))
            | (st', ev, Except.error e) =>
              (st', Event.loaderCreated (cacheKey d) st.nextId :: ev, Except.error e)
        else
          match execParams { st with
              ctx := (cacheKey d, ⟨st.nextId, d, []⟩) :: st.ctx,
              nextId := st.nextId + 1 } ps with
          | (st', ev, Except.ok binds) =>
            (st', Event.loaderCreated (cacheKey d) st.nextId :: ev,
             Except.ok ((p.name, (⟨st.nextId, d, []⟩ : LoaderInst)) :: binds))
          | (st', ev, Except.error e) =>
            (st', Event.loaderCreated (cacheKey d) st.nextId :: ev, Except.error e)

/-- `Resolver.exec_method`: provision the `Depends` parameters, then
`return method(**params)` — the body is invoked only after every
dependency is bound and cached. -/
def exec_method (st : EngState) (m : Method) : EngState × List Event × Except Err RVal :=
  match execParams st m.params with
  | (st', ev, Except.error e) => (st', ev, Except.error e)
  | (st', ev, Except.ok binds) =>
    (st', ev, Except.ok (m.body (binds.map (fun b => b.2))))

/-! ## The await loop and the post-process loop -/

/-- The unwrap loop of `resolve_obj`:
`while iscoroutine(val) or asyncio.isfuture(val): val = await val`,
emitting one `awaited` event per iteration and ending at the first
concrete (non-awaitable) value. -/
def awaitAll : RVal → List Event × PyVal
  | RVal.ret v => ([], v)
  | RVal.coro r =>
    match awaitAll r with
    | (ev, v) => (Event.awaited :: ev, v)
  | RVal.future r =>
    match awaitAll r with
    | (ev, v) => (Event.awaited :: ev, v)

/-- `k`-fold nesting of awaitables, as a resolver returning a manually
constructed deferred chain would produce. -/
def nestCoro : Nat → RVal → RVal
  | 0, r => r
  | n + 1, r => RVal.coro (nestCoro n r)

/-- Apply a hook's self-mutation: assign each listed attribute. -/
def applyMuts (muts : List (String × PyVal))
    (attrs : List (String × PyVal)) : List (String × PyVal) :=
  muts.foldl (fun a kv => setAttrList a kv.1 kv.2) attrs

/-- The post-processing loop at the end of `Resolver.resolve`: for each
hook name in enumeration order, strip `POST_PREFIX`, check the target
attribute exists (else raise `ResolverTargetAttrNotFound`), fetch the
hook and call it with no arguments.  The hook's return value is
discarded: it is never awaited and never written anywhere. -/
def runPosts (store : Store) (r : Nat) :
    List String → Store × List Event × Except Err Unit
  | [] => (store, [], Except.ok ())
  | name :: rest =>
    match getObj store r with
    | Option.none => (store, [], Except.error (Err.AttributeError name))
    | some target =>
      if pyHasattr target (pyReplace name POST_PREFIX) then
        match lookupStr target.posts name with
        | Option.none => (store, [], Except.error (Err.AttributeError name))
        | some hook =>
          let target' := { target with
            attrs := applyMuts hook.muts target.attrs }
          match runPosts (setObj store r target') r rest with
          | (store', ev, res) => (store', Event.hookCalled r name :: ev, res)
      else
        (store, [], Except.error (Err.ResolverTargetAttrNotFound
          ("fail to run " ++ name ++ "(), attribute "
            ++ pyReplace name POST_PREFIX ++ " not found")))

/-! ## The Traversal Engine (`Resolver.resolve` / `Resolver.resolve_obj`) -/

/-- The mutually recursive entry points of the engine, unified so that
one fuel-indexed structural recursion covers them all. -/
inductive Call : Type
  | resolve (v : PyVal)
  | resolveElems (es : List PyVal)
  | resolveFields (r : Nat) (fields : List String)
  | resolveObj (r : Nat) (field : String)

/-- A call's outcome: final Resolver state, final store, the event
trace, and the returned value or the raised exception. -/
abbrev Out := EngState × Store × List Event × Except Err PyVal

/-- One fuel-indexed interpreter for the whole engine.

* `Call.resolve v` is `Resolver.resolve`: the list/tuple branch gathers
  a recursive resolve of every element; it does not early-return, so
  the `is_acceptable_type` branch is still examined on the same value;
  for a Resolvable Object the resolver fields are gathered and then the
  post-process hooks run; `target` (the value itself) is returned.
* `Call.resolveElems` / `Call.resolveFields` are the sequentialised
  `asyncio.gather` fan-outs (join semantics, first failure aborts).
* `Call.resolveObj r field` is `Resolver.resolve_obj`: fetch the
  resolver method, derive the target attribute name by
  `str(field).replace(PREFIX, '')`, invoke it through `exec_method`,
  check the target attribute exists, check strict typing, unwrap
  awaitables, recursively resolve the concrete value, write it back. -/
def step : Nat → EngState → Store → Call → Out
  | 0, st, store, _ => (st, store, [], Except.error Err.OutOfFuel)
  | n + 1, st, store, Call.resolve v =>
    match
      (match v with
       | PyVal.pylist es => step n st store (Call.resolveElems es)
       | PyVal.pytuple es => step n st store (Call.resolveElems es)
       | _ => (st, store, [], Except.ok PyVal.none)) with
    | (st1, store1, ev1, Except.error e) => (st1, store1, ev1, Except.error e)
    | (st1, store1, ev1, Except.ok _) =>
      if is_acceptable_type v then
        match v with
        | PyVal.obj r =>
          match getObj store1 r with
          | Option.none => (st1, store1, ev1, Except.error (Err.AttributeError "object"))
          | some target =>
            match step n st1 store1
                (Call.resolveFields r (iter_over_object_resolvers target)) with
            | (st2, store2, ev2, Except.error e) =>
              (st2, store2, ev1 ++ ev2, Except.error e)
            | (st2, store2, ev2, Except.ok _) =>
              match getObj store2 r with
              | Option.none =>
                (st2, store2, ev1 ++ ev2, Except.error (Err.AttributeError "object"))
              | some target2 =>
                match runPosts store2 r (iter_over_object_post_methods target2) with
                | (store3, ev3, Except.error e) =>
                  (st2, store3, ev1 ++ ev2 ++ ev3, Except.error e)
                | (store3, ev3, Except.ok _) =>
                  (st2, store3, ev1 ++ ev2 ++ ev3, Except.ok v)
        | _ => (st1, store1, ev1, Except.ok v)
      else
        (st1, store1, ev1, Except.ok v)
  | _ + 1, st, store, Call.resolveElems [] => (st, store, [], Except.ok PyVal.none)
  | n + 1, st, store, Call.resolveElems (e :: es) =>
    match step n st store (Call.resolve e) with
    | (st1, store1, ev1, Except.error err) => (st1, store1, ev1, Except.error err)
    | (st1, store1, ev1, Except.ok _) =>
      match step n st1 store1 (Call.resolveElems es) with
      | (st2, store2, ev2, res) => (st2, store2, ev1 ++ ev2, res)
  | _ + 1, st, store, Call.resolveFields _ [] => (st, store, [], Except.ok PyVal.none)
  | n + 1, st, store, Call.resolveFields r (f :: fs) =>
    match step n st store (Call.resolveObj r f) with
    | (st1, store1, ev1, Except.error err) => (st1, store1, ev1, Except.error err)
    | (st1, store1, ev1, Except.ok _) =>
      match step n st1 store1 (Call.resolveFields r fs) with
      | (st2, store2, ev2, res) => (st2, store2, ev1 ++ ev2, res)
  | n + 1, st, store, Call.resolveObj r field =>
    match getObj store r with
    | Option.none => (st, store, [], Except.error (Err.AttributeError field))
    | some target =>
      match lookupStr target.resolvers field with
      | Option.none => (st, store, [], Except.error (Err.AttributeError field))
      | some item =>
        match exec_method st item with
        | (st1, evP, Except.error e) => (st1, store, evP, Except.error e)
        | (st1, evP, Except.ok val) =>
          if pyHasattr target (pyReplace field PREFIX) then
            if st1.ensure_type && item.annots.isEmpty then
              (st1, store, evP ++ [Event.resolverInvoked field],
               Except.error (Err.MissingAnnotationError
                 (field ++ ": return annotation is required")))
            else
              match awaitAll val with
              | (evA, v0) =>
                match step n st1 store (Call.resolve v0) with
                | (st2, store2, ev2, Except.error e) =>
                  (st2, store2, evP ++ [Event.resolverInvoked field] ++ evA ++ ev2,
                   Except.error e)
                | (st2, store2, ev2, Except.ok v1) =>
                  match getObj store2 r with
                  | Option.none =>
                    (st2, store2, evP ++ [Event.resolverInvoked field] ++ evA ++ ev2,
                     Except.error (Err.AttributeError field))
                  | some tcur =>
                    (st2,
                     setObj store2 r { tcur with
                       attrs := setAttrList tcur.attrs (pyReplace field PREFIX) v1 },
                     evP ++ [Event.resolverInvoked field] ++ evA ++ ev2
                       ++ [Event.fieldResolved r field],
                     Except.ok PyVal.none)
          else
            (st1, store, evP ++ [Event.resolverInvoked field],
             Except.error (Err.ResolverTargetAttrNotFound
               ("attribute " ++ pyReplace field PREFIX ++ " not found")))

/-- `Resolver.resolve`, fuel-bounded. -/
def resolve (fuel : Nat) (st : EngState) (store : Store) (v : PyVal) : Out :=
  step fuel st store (Call.resolve v)

/-- `Resolver.resolve_obj`, fuel-bounded. -/
def resolve_obj (fuel : Nat) (st : EngState) (store : Store)
    (r : Nat) (field : String) : Out :=
  step fuel st store (Call.resolveObj r field)

/-- Modelled from the spec: the package-level `resolve` helper (§6
Caller-facing API) is not under src (only the `Resolver` class is); per
§2/§3 each top-level call constructs a fresh Resolver, i.e. a fresh
Invocation Context whose instance cache starts empty and is discarded
when the call returns.  `nid` is the model's instance-identity
allocator, threaded between calls so identities are globally
comparable. -/
def resolveEntry (lf : List (LoaderDef × List (String × PyVal))) (et : Bool)
    (fuel nid : Nat) (store : Store) (v : PyVal) : Out :=
  step fuel (Resolver.init lf et nid) store (Call.resolve v)

/-! ## Well-formedness of the instance cache -/

/-- The cache invariant: instance identities are pairwise distinct and
below the allocator, and every entry is keyed by its own definition's
`module.name` key. -/
@[reducible] def CacheWF (st : EngState) : Prop :=
  (st.ctx.map (fun e => e.2.id)).Nodup ∧
  ∀ e ∈ st.ctx, e.2.id < st.nextId ∧ e.1 = cacheKey e.2.defn

/-- How many loader instances were constructed for cache key `k` in a
trace. -/
def countCreated (ev : List Event) (k : String) : Nat :=
  match ev with
  | [] => 0
  | Event.loaderCreated k' _ :: rest =>
    (if k' = k then 1 else 0) + countCreated rest k
  | _ :: rest => countCreated rest k

/-! ## Lemmas about the association lists and `cacheKey` -/

theorem lookupStr_mem {α : Type} (m : List (String × α)) (k : String) (v : α)
    (h : lookupStr m k = some v) : (k, v) ∈ m := by
  induction m with
  | nil => simp [lookupStr] at h
  | cons e rest ih =>
    obtain ⟨k', v'⟩ := e
    by_cases hk : k' = k
    · subst hk
      simp [lookupStr] at h
      subst h
      exact List.mem_cons_self _ _
    · simp [lookupStr, hk] at h
      exact List.mem_cons_of_mem _ (ih h)


theorem string_data_append (s t : String) : (s ++ t).data = s.data ++ t.data := by
  cases s; cases t; rfl

theorem string_eq_of_data_eq {s t : String} (h : s.data = t.data) : s = t := by
  cases s; cases t; exact congrArg String.mk h

theorem cacheKey_ne_of_module_ne (d₁ d₂ : LoaderDef) (hn : d₁.name = d₂.name)
    (hm : d₁.module ≠ d₂.module) : cacheKey d₁ ≠ cacheKey d₂ := by
  intro h
  apply hm
  have hd := congrArg String.data h
  rw [cacheKey, cacheKey, string_data_append, string_data_append,
    string_data_append, string_data_append, hn] at hd
  have h2 := List.append_cancel_right hd
  have h3 := List.append_cancel_right h2
  exact string_eq_of_data_eq h3

/-! ## Invariants of the Batching-Unit Provider -/

theorem assignFields_inst (key : String) (cfg : List (String × PyVal)) :
    ∀ (fs : List String) (inst inst' : LoaderInst) (res : Except Err Unit),
      assignFields key cfg inst fs = (inst', res) →
      inst'.id = inst.id ∧ inst'.defn = inst.defn ∧
      (∀ m, res ≠ Except.error (Err.MissingAnnotationError m)) := by
  intro fs
  induction fs with
  | nil =>
    intro inst inst' res h
    simp [assignFields] at h
    obtain ⟨h1, h2⟩ := h
    subst h1; subst h2
    simp
  | cons f fs ih =>
    intro inst inst' res h
    rw [assignFields] at h
    cases hf : lookupStr cfg f with
    | some v =>
      rw [hf] at h
      have := ih _ _ _ h
      simpa using this
    | none =>
      rw [hf] at h
      simp at h
      obtain ⟨h1, h2⟩ := h
      subst h1; subst h2
      simp

/-- The bundled invariant of one `execParams` run, from state `st` to
state `st'` with trace `ev` and result `res`: the allocator is
monotone; flags and the configuration table are preserved; every
construction event carries a fresh identity in `[st.nextId,
st'.nextId)`; the trace holds construction events only; cached entries
persist; a key already cached causes no construction; every key causes
at most one construction; well-formedness is preserved and every bound
parameter is cached in the final state under its definition's key; and
no `MissingAnnotationError` can arise here. -/
def ExecParamsInv (st st' : EngState) (ev : List Event)
    (res : Except Err (List (String × LoaderInst))) : Prop :=
  st.nextId ≤ st'.nextId ∧
  st'.ensure_type = st.ensure_type ∧
  st'.loader_filters = st.loader_filters ∧
  (∀ k i, Event.loaderCreated k i ∈ ev → st.nextId ≤ i ∧ i < st'.nextId) ∧
  (∀ e ∈ ev, ∃ k i, e = Event.loaderCreated k i) ∧
  (∀ k l, lookupStr st.ctx k = some l → lookupStr st'.ctx k = some l) ∧
  (∀ k, (lookupStr st.ctx k).isSome = true → countCreated ev k = 0) ∧
  (∀ k, countCreated ev k ≤ 1) ∧
  (CacheWF st → CacheWF st' ∧
    ∀ binds, res = Except.ok binds →
      ∀ b ∈ binds, lookupStr st'.ctx (cacheKey b.2.defn) = some b.2) ∧
  (∀ m, res ≠ Except.error (Err.MissingAnnotationError m))

theorem lookupStr_cons {α : Type} (k : String) (v : α) (m : List (String × α))
    (kk : String) :
    lookupStr ((k, v) :: m) kk = if k = kk then some v else lookupStr m kk := rfl

theorem execParams_inv :
    ∀ (ps : List Param) (st st' : EngState) (ev : List Event)
      (res : Except Err (List (String × LoaderInst))),
      execParams st ps = (st', ev, res) → ExecParamsInv st st' ev res := by
  intro ps
  induction ps with
  | nil =>
    intro st st' ev res h
    simp [execParams] at h
    obtain ⟨h1, h2, h3⟩ := h
    subst h1; subst h2; subst h3
    refine ⟨le_refl _, rfl, rfl, by simp, by simp, fun k l hk => hk,
      by simp [countCreated], by simp [countCreated], fun hwf => ⟨hwf, ?_⟩, by simp⟩
    intro binds hb b hmem
    injection hb with hb2
    rw [← hb2] at hmem
    simp at hmem
  | cons p ps ih =>
    intro st st' ev res h
    cases hdep : p.dep with
    | none =>
      rw [execParams, hdep] at h
      exact ih st st' ev res h
    | some d =>
      cases hlook : lookupStr st.ctx (cacheKey d) with
      | some hit =>
        rcases hrec : execParams st ps with ⟨stR, evR, resR⟩
        have inv := ih st stR evR resR hrec
        obtain ⟨a1, a2, a3, a4, a5, a6, a7, a8, a9, a10⟩ := inv
        cases resR with
        | ok binds =>
          simp [execParams, hdep, hlook, hrec] at h
          obtain ⟨h1, h2, h3⟩ := h
          subst h1; subst h2; subst h3
          refine ⟨a1, a2, a3, a4, a5, a6, a7, a8, fun hwf => ?_, by simp⟩
          obtain ⟨hwf', hbind⟩ := a9 hwf
          refine ⟨hwf', ?_⟩
          intro binds' hb b hmem
          injection hb with hb2
          rw [← hb2] at hmem
          rcases List.mem_cons.mp hmem with hb | hb
          · subst hb
            have hmem' := lookupStr_mem _ _ _ hlook
            have hkey : cacheKey d = cacheKey hit.defn := (hwf.2 _ hmem').2
            show lookupStr stR.ctx (cacheKey hit.defn) = some hit
            rw [← hkey]
            exact a6 _ _ hlook
          · exact hbind binds rfl b hb
        | error e =>
          simp [execParams, hdep, hlook, hrec] at h
          obtain ⟨h1, h2, h3⟩ := h
          subst h1; subst h2; subst h3
          refine ⟨a1, a2, a3, a4, a5, a6, a7, a8, fun hwf => ⟨(a9 hwf).1, ?_⟩, a10⟩
          intro binds hb
          simp at hb
      | none =>
        cases hcls : d.isClass with
        | true =>
          rcases hass : assignFields (cacheKey d)
              ((lookupCls st.loader_filters d).getD []) ⟨st.nextId, d, []⟩
              d.classFields with ⟨inst, resA⟩
          cases resA with
          | error e =>
            simp [execParams, hdep, hlook, hcls, hass] at h
            obtain ⟨h1, h2, h3⟩ := h
            subst h1; subst h2; subst h3
            obtain ⟨-, -, herr⟩ := assignFields_inst _ _ _ _ _ _ hass
            refine ⟨Nat.le_succ _, rfl, rfl, ?_, by simp, fun k l hk => hk, ?_, ?_,
              fun hwf => ⟨⟨hwf.1, ?_⟩, ?_⟩, ?_⟩
            · intro k i hki
              simp at hki
              obtain ⟨-, hki2⟩ := hki
              subst hki2
              exact ⟨le_refl _, Nat.lt_succ_self _⟩
            · intro k hk
              have hne : ¬ (cacheKey d = k) := by
                intro hkk
                rw [← hkk, hlook] at hk
                simp at hk
              simp [countCreated, hne]
            · intro k
              by_cases hk : cacheKey d = k
              · simp [countCreated, hk]
              · simp [countCreated, hk]
            · intro e' he'
              have h5 := hwf.2 e' he'
              exact ⟨Nat.lt_succ_of_lt h5.1, h5.2⟩
            · intro binds hb
              simp at hb
            · intro m hm
              simp only [Except.error.injEq] at hm
              exact herr m (by rw [hm])
          | ok u =>
            obtain ⟨hid0, hdefn0, -⟩ := assignFields_inst _ _ _ _ _ _ hass
            have hid : inst.id = st.nextId := hid0
            have hdefn : inst.defn = d := hdefn0
            rcases hrec : execParams
                { st with ctx := (cacheKey d, inst) :: st.ctx,
                          nextId := st.nextId + 1 } ps with ⟨stR, evR, resR⟩
            have inv := ih _ stR evR resR hrec
            obtain ⟨a1, a2, a3, a4, a5, a6, a7, a8, a9, a10⟩ := inv
            have a1' : st.nextId + 1 ≤ stR.nextId := a1
            have a2' : stR.ensure_type = st.ensure_type := a2
            have a3' : stR.loader_filters = st.loader_filters := a3
            have a4' : ∀ k i, Event.loaderCreated k i ∈ evR →
                st.nextId + 1 ≤ i ∧ i < stR.nextId := a4
            have a6' : ∀ k l, lookupStr ((cacheKey d, inst) :: st.ctx) k = some l →
                lookupStr stR.ctx k = some l := a6
            have a7' : ∀ k,
                (lookupStr ((cacheKey d, inst) :: st.ctx) k).isSome = true →
                countCreated evR k = 0 := a7
            have hA4 : ∀ k i, Event.loaderCreated k i
                  ∈ Event.loaderCreated (cacheKey d) st.nextId :: evR →
                st.nextId ≤ i ∧ i < stR.nextId := by
              intro k i hki
              rcases List.mem_cons.mp hki with hk | hk
              · simp at hk
                obtain ⟨-, hk2⟩ := hk
                subst hk2
                exact ⟨le_refl _, by omega⟩
              · have h4 := a4' k i hk
                omega
            have hA5 : ∀ e ∈ Event.loaderCreated (cacheKey d) st.nextId :: evR,
                ∃ k i, e = Event.loaderCreated k i := by
              intro e he
              rcases List.mem_cons.mp he with hk | hk
              · exact ⟨_, _, hk⟩
              · exact a5 e hk
            have hA6 : ∀ k l, lookupStr st.ctx k = some l →
                lookupStr stR.ctx k = some l := by
              intro k l hk
              apply a6'
              rw [lookupStr_cons]
              have hne : ¬ (cacheKey d = k) := by
                intro hkk
                rw [← hkk, hlook] at hk
                simp at hk
              rw [if_neg hne]
              exact hk
            have hA7 : ∀ k, (lookupStr st.ctx k).isSome = true →
                countCreated (Event.loaderCreated (cacheKey d) st.nextId :: evR) k
                  = 0 := by
              intro k hk
              have hne : ¬ (cacheKey d = k) := by
                intro hkk
                rw [← hkk, hlook] at hk
                simp at hk
              have h0 : countCreated evR k = 0 := by
                apply a7'
                rw [lookupStr_cons, if_neg hne]
                exact hk
              simp [countCreated, hne, h0]
            have hA8 : ∀ k,
                countCreated (Event.loaderCreated (cacheKey d) st.nextId :: evR) k
                  ≤ 1 := by
              intro k
              by_cases hk : cacheKey d = k
              · have h0 : countCreated evR k = 0 := by
                  apply a7'
                  rw [lookupStr_cons, if_pos hk]
                  simp
                simp [countCreated, hk, h0]
              · have h8 := a8 k
                simp [countCreated, hk]
                omega
            have hWF1 : CacheWF st → CacheWF { st with
                ctx := (cacheKey d, inst) :: st.ctx, nextId := st.nextId + 1 } := by
              intro hwf
              constructor
              · show (((cacheKey d, inst) :: st.ctx).map (fun e => e.2.id)).Nodup
                rw [List.map_cons, List.nodup_cons]
                refine ⟨?_, hwf.1⟩
                intro hmem
                rcases List.mem_map.mp hmem with ⟨e, hmem', hide⟩
                have hide' : e.2.id = inst.id := hide
                have h5 := (hwf.2 e hmem').1
                rw [hid] at hide'
                omega
              · intro e he
                show e.2.id < st.nextId + 1 ∧ e.1 = cacheKey e.2.defn
                rcases List.mem_cons.mp he with hk | hk
                · subst hk
                  refine ⟨by rw [hid]; omega, ?_⟩
                  show cacheKey d = cacheKey inst.defn
                  rw [hdefn]
                · have h5 := hwf.2 e hk
                  exact ⟨by omega, h5.2⟩
            cases resR with
            | ok binds =>
              simp [execParams, hdep, hlook, hcls, hass, hrec] at h
              obtain ⟨h1, h2, h3⟩ := h
              subst h1; subst h2; subst h3
              refine ⟨by omega, a2', a3', hA4, hA5, hA6, hA7, hA8, fun hwf => ?_,
                by simp⟩
              obtain ⟨hwf', hbind⟩ := a9 (hWF1 hwf)
              refine ⟨hwf', ?_⟩
              intro binds' hb b hmem
              injection hb with hb2
              rw [← hb2] at hmem
              rcases List.mem_cons.mp hmem with hb | hb
              · subst hb
                show lookupStr stR.ctx (cacheKey inst.defn) = some inst
                rw [hdefn]
                apply a6'
                rw [lookupStr_cons, if_pos rfl]
              · exact hbind binds rfl b hb
            | error e =>
              simp [execParams, hdep, hlook, hcls, hass, hrec] at h
              obtain ⟨h1, h2, h3⟩ := h
              subst h1; subst h2; subst h3
              refine ⟨by omega, a2', a3', hA4, hA5, hA6, hA7, hA8,
                fun hwf => ⟨(a9 (hWF1 hwf)).1, ?_⟩, a10⟩
              intro binds hb
              simp at hb
        | false =>
          rcases hrec : execParams
              { st with ctx := (cacheKey d, ⟨st.nextId, d, []⟩) :: st.ctx,
                        nextId := st.nextId + 1 } ps with ⟨stR, evR, resR⟩
          have inv := ih _ stR evR resR hrec
          obtain ⟨a1, a2, a3, a4, a5, a6, a7, a8, a9, a10⟩ := inv
          have a1' : st.nextId + 1 ≤ stR.nextId := a1
          have a2' : stR.ensure_type = st.ensure_type := a2
          have a3' : stR.loader_filters = st.loader_filters := a3
          have a4' : ∀ k i, Event.loaderCreated k i ∈ evR →
              st.nextId + 1 ≤ i ∧ i < stR.nextId := a4
          have a6' : ∀ k l,
              lookupStr ((cacheKey d, (⟨st.nextId, d, []⟩ : LoaderInst))
                  :: st.ctx) k = some l →
              lookupStr stR.ctx k = some l := a6
          have a7' : ∀ k,
              (lookupStr ((cacheKey d, (⟨st.nextId, d, []⟩ : LoaderInst))
                  :: st.ctx) k).isSome = true →
              countCreated evR k = 0 := a7
          have hA4 : ∀ k i, Event.loaderCreated k i
                ∈ Event.loaderCreated (cacheKey d) st.nextId :: evR →
              st.nextId ≤ i ∧ i < stR.nextId := by
            intro k i hki
            rcases List.mem_cons.mp hki with hk | hk
            · simp at hk
              obtain ⟨-, hk2⟩ := hk
              subst hk2
              exact ⟨le_refl _, by omega⟩
            · have h4 := a4' k i hk
              omega
          have hA5 : ∀ e ∈ Event.loaderCreated (cacheKey d) st.nextId :: evR,
              ∃ k i, e = Event.loaderCreated k i := by
            intro e he
            rcases List.mem_cons.mp he with hk | hk
            · exact ⟨_, _, hk⟩
            · exact a5 e hk
          have hA6 : ∀ k l, lookupStr st.ctx k = some l →
              lookupStr stR.ctx k = some l := by
            intro k l hk
            apply a6'
            rw [lookupStr_cons]
            have hne : ¬ (cacheKey d = k) := by
              intro hkk
              rw [← hkk, hlook] at hk
              simp at hk
            rw [if_neg hne]
            exact hk
          have hA7 : ∀ k, (lookupStr st.ctx k).isSome = true →
              countCreated (Event.loaderCreated (cacheKey d) st.nextId :: evR) k
                = 0 := by
            intro k hk
            have hne : ¬ (cacheKey d = k) := by
              intro hkk
              rw [← hkk, hlook] at hk
              simp at hk
            have h0 : countCreated evR k = 0 := by
              apply a7'
              rw [lookupStr_cons, if_neg hne]
              exact hk
            simp [countCreated, hne, h0]
          have hA8 : ∀ k,
              countCreated (Event.loaderCreated (cacheKey d) st.nextId :: evR) k
                ≤ 1 := by
            intro k
            by_cases hk : cacheKey d = k
            · have h0 : countCreated evR k = 0 := by
                apply a7'
                rw [lookupStr_cons, if_pos hk]
                simp
              simp [countCreated, hk, h0]
            · have h8 := a8 k
              simp [countCreated, hk]
              omega
          have hWF1 : CacheWF st → CacheWF { st with
              ctx := (cacheKey d, ⟨st.nextId, d, []⟩) :: st.ctx,
              nextId := st.nextId + 1 } := by
            intro hwf
            constructor
            · show (((cacheKey d, (⟨st.nextId, d, []⟩ : LoaderInst)) :: st.ctx).map
                  (fun e => e.2.id)).Nodup
              rw [List.map_cons, List.nodup_cons]
              refine ⟨?_, hwf.1⟩
              intro hmem
              rcases List.mem_map.mp hmem with ⟨e, hmem', hide⟩
              have hide' : e.2.id = st.nextId := hide
              have h5 := (hwf.2 e hmem').1
              omega
            · intro e he
              show e.2.id < st.nextId + 1 ∧ e.1 = cacheKey e.2.defn
              rcases List.mem_cons.mp he with hk | hk
              · subst hk
                exact ⟨Nat.lt_succ_self _, rfl⟩
              · have h5 := hwf.2 e hk
                exact ⟨by omega, h5.2⟩
          cases resR with
          | ok binds =>
            simp [execParams, hdep, hlook, hcls, hrec] at h
            obtain ⟨h1, h2, h3⟩ := h
            subst h1; subst h2; subst h3
            refine ⟨by omega, a2', a3', hA4, hA5, hA6, hA7, hA8, fun hwf => ?_,
              by simp⟩
            obtain ⟨hwf', hbind⟩ := a9 (hWF1 hwf)
            refine ⟨hwf', ?_⟩
            intro binds' hb b hmem
            injection hb with hb2
            rw [← hb2] at hmem
            rcases List.mem_cons.mp hmem with hb | hb
            · subst hb
              show lookupStr stR.ctx
                  (cacheKey (⟨st.nextId, d, []⟩ : LoaderInst).defn)
                  = some (⟨st.nextId, d, []⟩ : LoaderInst)
              apply a6'
              rw [lookupStr_cons, if_pos rfl]
            · exact hbind binds rfl b hb
          | error e =>
            simp [execParams, hdep, hlook, hcls, hrec] at h
            obtain ⟨h1, h2, h3⟩ := h
            subst h1; subst h2; subst h3
            refine ⟨by omega, a2', a3', hA4, hA5, hA6, hA7, hA8,
              fun hwf => ⟨(a9 (hWF1 hwf)).1, ?_⟩, a10⟩
            intro binds hb
            simp at hb

/-! ## C1 / C5: provisioning theorems -/

def dShared : LoaderDef := ⟨"mod_a", "BookLoader", false, []⟩

def instShared : LoaderInst := ⟨0, dShared, []⟩

def psShared : List Param := [⟨"p", some dShared⟩, ⟨"q", some dShared⟩]

def stEmpty : EngState := Resolver.init [] false 0

def stShared : EngState :=
  { ctx := [(cacheKey dShared, instShared)], loader_filters := [],
    ensure_type := false, nextId := 1 }

def bindsShared : List (String × LoaderInst) :=
  [("p", instShared), ("q", instShared)]

theorem lookupStr_setAttrList (a : List (String × PyVal)) (k : String)
    (v : PyVal) (kk : String) :
    lookupStr (setAttrList a k v) kk
      = if k = kk then some v else lookupStr a kk := by
  induction a with
  | nil =>
    simp [setAttrList, lookupStr]
  | cons e rest ih =>
    obtain ⟨k', v'⟩ := e
    by_cases h1 : k' = k
    · subst h1
      rw [setAttrList, if_pos rfl]
      by_cases h2 : k' = kk
      · subst h2
        simp [lookupStr]
      · simp [lookupStr, h2]
    · rw [setAttrList, if_neg h1]
      by_cases h2 : k' = kk
      · subst h2
        have h3 : ¬ (k = k') := fun hk => h1 hk.symm
        simp [lookupStr, h3]
      · simp [lookupStr, h2, ih]

theorem assignFields_first_missing (key : String) (cfg : List (String × PyVal)) :
    ∀ (pre : List String) (inst : LoaderInst) (f : String) (post : List String),
      (∀ g ∈ pre, (lookupStr cfg g).isSome = true) →
      lookupStr cfg f = Option.none →
      ∃ inst', assignFields key cfg inst (pre ++ f :: post)
        = (inst', Except.error (Err.LoaderFieldNotProvidedError
            (key ++ "." ++ f ++ " not found in Resolver()"))) := by
  intro pre
  induction pre with
  | nil =>
    intro inst f post hpre hf
    refine ⟨inst, ?_⟩
    simp only [List.nil_append, assignFields, hf]
  | cons g pre ih =>
    intro inst f post hpre hf
    have hg := hpre g (List.mem_cons_self _ _)
    rcases hv : lookupStr cfg g with _ | v
    · rw [hv] at hg
      simp at hg
    · have hpre' : ∀ g' ∈ pre, (lookupStr cfg g').isSome = true :=
        fun g' hg' => hpre g' (List.mem_cons_of_mem _ hg')
      obtain ⟨inst', hrec⟩ := ih
        { inst with fields := setAttrList inst.fields g v } f post hpre' hf
      refine ⟨inst', ?_⟩
      simp only [List.cons_append, assignFields, hv]
      exact hrec

theorem assignFields_complete (key : String) (cfg : List (String × PyVal)) :
    ∀ (fs : List String) (inst : LoaderInst),
      (∀ g ∈ fs, (lookupStr cfg g).isSome = true) →
      ∃ inst', assignFields key cfg inst fs = (inst', Except.ok ()) ∧
        inst'.id = inst.id ∧ inst'.defn = inst.defn ∧
        (∀ g, lookupStr inst'.fields g
          = if g ∈ fs then lookupStr cfg g else lookupStr inst.fields g) := by
  intro fs
  induction fs with
  | nil =>
    intro inst hp
    refine ⟨inst, by simp [assignFields], rfl, rfl, ?_⟩
    intro g
    simp
  | cons f fs ih =>
    intro inst hp
    have hf := hp f (List.mem_cons_self _ _)
    rcases hv : lookupStr cfg f with _ | v
    · rw [hv] at hf
      simp at hf
    · have hp' : ∀ g ∈ fs, (lookupStr cfg g).isSome = true :=
        fun g hg => hp g (List.mem_cons_of_mem _ hg)
      obtain ⟨inst', h1, h2, h3, h4⟩ := ih
        { inst with fields := setAttrList inst.fields f v } hp'
      refine ⟨inst', ?_, h2, h3, ?_⟩
      · simp only [assignFields, hv]
        exact h1
      · intro g
        rw [h4 g]
        by_cases hg : g ∈ fs
        · simp [hg, List.mem_cons]
        · by_cases hgf : g = f
          · subst hgf
            simp [hg, lookupStr_setAttrList, hv]
          · have : ¬ (g ∈ f :: fs) := by
              simp [hg, hgf]
            simp only [hg, if_false, this]
            show lookupStr (setAttrList inst.fields f v) g = lookupStr inst.fields g
            rw [lookupStr_setAttrList]
            have : ¬ (f = g) := fun hk => hgf hk.symm
            rw [if_neg this]

/-- C5: provisioning a class-form batching unit instantiates it with no
arguments, then assigns every declared configuration attribute from the
configuration table keyed by that class; part (a): if some declared
attribute has no supplied value, `exec_method` fails with
`LoaderFieldNotProvidedError` naming the first missing attribute,
nothing is cached (the returned state only advanced the allocator, its
cache is untouched), and the resolver body is never invoked (the trace
holds the sole construction event), so no fetch can have occurred;
part (b): with every attribute supplied, the built instance starts
from the zero-argument construction and carries exactly the configured
values, and provisioning caches it and binds it. -/
theorem class_loader_config_injection
    (st : EngState) (d : LoaderDef) (pname : String) (ps : List Param)
    (hc : d.isClass = true)
    (hmiss : lookupStr st.ctx (cacheKey d) = Option.none) :
    (∀ (m : Method) (pre : List String) (f : String) (post : List String),
        m.params = ⟨pname, some d⟩ :: ps →
        d.classFields = pre ++ f :: post →
        (∀ g ∈ pre,
          (lookupStr ((lookupCls st.loader_filters d).getD []) g).isSome = true) →
        lookupStr ((lookupCls st.loader_filters d).getD []) f = Option.none →
        exec_method st m =
          ({ st with nextId := st.nextId + 1 },
           [Event.loaderCreated (cacheKey d) st.nextId],
           Except.error (Err.LoaderFieldNotProvidedError
             (cacheKey d ++ "." ++ f ++ " not found in Resolver()")))) ∧
    ((∀ g ∈ d.classFields,
        (lookupStr ((lookupCls st.loader_filters d).getD []) g).isSome = true) →
      ∃ inst,
        assignFields (cacheKey d) ((lookupCls st.loader_filters d).getD [])
          ⟨st.nextId, d, []⟩ d.classFields = (inst, Except.ok ()) ∧
        inst.id = st.nextId ∧ inst.defn = d ∧
        (∀ g ∈ d.classFields,
          lookupStr inst.fields g
            = lookupStr ((lookupCls st.loader_filters d).getD []) g) ∧
        execParams st [⟨pname, some d⟩] =
          ({ st with ctx := (cacheKey d, inst) :: st.ctx,
                     nextId := st.nextId + 1 },
           [Event.loaderCreated (cacheKey d) st.nextId],
           Except.ok [(pname, inst)])) := by
  constructor
  · intro m pre f post hm hfs hpre hf
    obtain ⟨inst', hass⟩ := assignFields_first_missing (cacheKey d)
      ((lookupCls st.loader_filters d).getD []) pre ⟨st.nextId, d, []⟩ f post
      hpre hf
    rw [← hfs] at hass
    rw [exec_method, hm, execParams]
    simp only [hmiss, hc, if_true, hass]
  · intro hall
    obtain ⟨inst, h1, h2, h3, h4⟩ := assignFields_complete (cacheKey d)
      ((lookupCls st.loader_filters d).getD []) d.classFields
      ⟨st.nextId, d, []⟩ hall
    have h2' : inst.id = st.nextId := h2
    have h3' : inst.defn = d := h3
    refine ⟨inst, h1, h2', h3', ?_, ?_⟩
    · intro g hg
      rw [h4 g, if_pos hg]
    · rw [execParams]
      simp only [hmiss, hc, if_true, h1, execParams]

def dCfg : LoaderDef := ⟨"m", "CfgLoader", true, ["power"]⟩

def mCfg : Method :=
  { params := [⟨"loader", some dCfg⟩], annots := [],
    body := fun _ => RVal.ret PyVal.none }

/-- Witness for C5: a class loader with a declared `power` attribute
and an empty configuration table fails with
`LoaderFieldNotProvidedError` before the resolver body runs. -/
theorem class_loader_config_injection_witness :
    exec_method (Resolver.init [] false 0) mCfg =
      ({ Resolver.init [] false 0 with nextId := 1 },
       [Event.loaderCreated (cacheKey dCfg) 0],
       Except.error (Err.LoaderFieldNotProvidedError
         (cacheKey dCfg ++ "." ++ "power" ++ " not found in Resolver()"))) :=
  (class_loader_config_injection (Resolver.init [] false 0) dCfg "loader" []
    (by decide) rfl).1 mCfg [] "power" [] rfl rfl (by simp) rfl

/-! ## C3 / C4: field-resolution step -/

theorem awaitAll_nestCoro (k : Nat) (v : PyVal) :
    awaitAll (nestCoro k (RVal.ret v)) = (List.replicate k Event.awaited, v) := by
  induction k with
  | zero => rfl
  | succ k ih =>
    show awaitAll (RVal.coro (nestCoro k (RVal.ret v)))
      = (List.replicate (k+1) Event.awaited, v)
    rw [awaitAll, ih, List.replicate]

/-- C3 (amended): when the derived target attribute does not exist on
the object, `resolve_obj` fails with `ResolverTargetAttrNotFound` and
no field of any object is mutated (the store is returned unchanged) —
but the check happens only *after* the resolver function has been
invoked through `exec_method` (the trace of the failing run already
ends in the invocation event), not before it as the spec's step order
prescribes; the check does precede awaiting, recursive resolution and
the write-back. -/
theorem target_attr_missing_after_invoke
    (n : Nat) (st : EngState) (store : Store) (r : Nat) (target : Object)
    (item : Method) (field : String) (st₁ : EngState) (evP : List Event)
    (rv : RVal)
    (hobj : getObj store r = some target)
    (hres : lookupStr target.resolvers field = some item)
    (hexec : exec_method st item = (st₁, evP, Except.ok rv))
    (hhas : pyHasattr target (pyReplace field PREFIX) = false) :
    resolve_obj (n+1) st store r field
      = (st₁, store, evP ++ [Event.resolverInvoked field],
         Except.error (Err.ResolverTargetAttrNotFound
           ("attribute " ++ pyReplace field PREFIX ++ " not found"))) := by
  show step (n+1) st store (Call.resolveObj r field) = _
  simp only [step, hobj, hres, hexec, hhas]
  simp

def mScalar : Method :=
  { params := [], annots := ["return"], body := fun _ => RVal.ret (PyVal.int 1) }

def objNoTarget : Object :=
  { attrs := [("other", PyVal.int 0)],
    resolvers := [("resolve_x", mScalar)], posts := [] }

/-- Counterexample for C3 as stated: on an object whose `resolve_x`
resolver has no `x` attribute, the run fails with
`ResolverTargetAttrNotFound`, yet its trace already contains the
resolver-invocation event — the resolver function was invoked before
the target-attribute check, contradicting the claimed step order
(under which a failing check would leave an invocation-free trace). -/
theorem target_check_after_invoke_cex :
    (resolve_obj 5 stEmpty [objNoTarget] 0 "resolve_x").2.2
      = ([Event.resolverInvoked "resolve_x"],
         Except.error (Err.ResolverTargetAttrNotFound "attribute x not found"))
    ∧ Event.resolverInvoked "resolve_x"
        ∈ (resolve_obj 5 stEmpty [objNoTarget] 0 "resolve_x").2.2.1 := by
  refine ⟨rfl, ?_⟩
  decide

/-- Witness for the amended C3 at the same concrete input. -/
theorem target_attr_missing_after_invoke_witness :
    resolve_obj 5 stEmpty [objNoTarget] 0 "resolve_x"
      = (stEmpty, [objNoTarget], [] ++ [Event.resolverInvoked "resolve_x"],
         Except.error (Err.ResolverTargetAttrNotFound
           ("attribute " ++ pyReplace "resolve_x" PREFIX ++ " not found"))) :=
  target_attr_missing_after_invoke 4 stEmpty [objNoTarget] 0 objNoTarget
    mScalar "resolve_x" stEmpty [] (RVal.ret (PyVal.int 1)) rfl rfl rfl rfl

/-- C4: a resolver returning an awaitable (possibly an awaitable
resolving to another awaitable, `k` levels deep) is awaited repeatedly
until a concrete value appears (first clause: the unwrap loop strips
every nesting level, one `await` event per level, ending at the inner
concrete value); the concrete value is then recursively resolved by
the Traversal Engine, and the fully resolved result is written onto
the derived target attribute (second clause: the exact outcome of
`resolve_obj`, whose final store holds the recursively resolved value
at the stripped attribute name). -/
theorem awaitable_unwrapped_and_resolved :
    (∀ (k : Nat) (v : PyVal),
      awaitAll (nestCoro k (RVal.ret v)) = (List.replicate k Event.awaited, v)) ∧
    (∀ (n : Nat) (st : EngState) (store : Store) (r : Nat) (target : Object)
      (item : Method) (field : String) (st₁ : EngState) (evP : List Event)
      (rv : RVal) (evA : List Event) (v₀ : PyVal) (st₂ : EngState)
      (store₂ : Store) (ev₂ : List Event) (v₁ : PyVal) (tcur : Object),
      getObj store r = some target →
      lookupStr target.resolvers field = some item →
      exec_method st item = (st₁, evP, Except.ok rv) →
      pyHasattr target (pyReplace field PREFIX) = true →
      (st₁.ensure_type && item.annots.isEmpty) = false →
      awaitAll rv = (evA, v₀) →
      step n st₁ store (Call.resolve v₀) = (st₂, store₂, ev₂, Except.ok v₁) →
      getObj store₂ r = some tcur →
      resolve_obj (n+1) st store r field
        = (st₂, setObj store₂ r { tcur with
             attrs := setAttrList tcur.attrs (pyReplace field PREFIX) v₁ },
           evP ++ [Event.resolverInvoked field] ++ evA ++ ev₂
             ++ [Event.fieldResolved r field],
           Except.ok PyVal.none)) := by
  refine ⟨awaitAll_nestCoro, ?_⟩
  intro n st store r target item field st₁ evP rv evA v₀ st₂ store₂ ev₂ v₁ tcur
    hobj hres hexec hhas hens hawait hrec hcur
  show step (n+1) st store (Call.resolveObj r field) = _
  simp only [step, hobj, hres, hexec, hhas, hens, hawait, hrec, hcur]
  simp

def mFuture : Method :=
  { params := [], annots := [],
    body := fun _ => nestCoro 2 (RVal.ret (PyVal.str "hello")) }

def objFuture : Object :=
  { attrs := [("future", PyVal.none)],
    resolvers := [("resolve_future", mFuture)], posts := [] }

/-- Witness for C4: a resolver returning a two-level awaitable chain is
awaited twice and the settled value lands on the `future` attribute
(mirroring `test_resolve_future`). -/
theorem awaitable_unwrapped_and_resolved_witness :
    resolve_obj 4 stEmpty [objFuture] 0 "resolve_future"
      = (stEmpty,
         [{ objFuture with attrs := [("future", PyVal.str "hello")] }],
         [Event.resolverInvoked "resolve_future", Event.awaited, Event.awaited,
          Event.fieldResolved 0 "resolve_future"],
         Except.ok PyVal.none) := by
  have h := awaitable_unwrapped_and_resolved.2 3 stEmpty [objFuture] 0 objFuture
    mFuture "resolve_future" stEmpty [] (nestCoro 2 (RVal.ret (PyVal.str "hello")))
    [Event.awaited, Event.awaited] (PyVal.str "hello") stEmpty [objFuture] []
    (PyVal.str "hello") objFuture rfl rfl rfl rfl rfl rfl rfl rfl
  simpa using h

/-! ## The global run invariant of the Traversal Engine -/

/-- The shape of an object: everything except its data attributes.  The
engine only ever mutates attributes, never the declared resolvers or
hooks. -/
def objShape (o : Object) : List (String × Method) × List (String × Hook) :=
  (o.resolvers, o.posts)

theorem setObj_map_shape :
    ∀ (store : Store) (r : Nat) (o t : Object),
      getObj store r = some t → objShape o = objShape t →
      (setObj store r o).map objShape = store.map objShape := by
  intro store
  induction store with
  | nil =>
    intro r o t ht
    simp [getObj] at ht
  | cons x rest ih =>
    intro r o t ht hsh
    cases r with
    | zero =>
      simp [getObj] at ht
      subst ht
      simp [setObj, hsh]
    | succ r =>
      simp only [getObj] at ht
      simp only [setObj, List.map_cons]
      rw [ih r o t ht hsh]

theorem awaitAll_events : ∀ (rv : RVal), ∀ e ∈ (awaitAll rv).1, e = Event.awaited := by
  intro rv
  induction rv with
  | ret v => intro e he; simp [awaitAll] at he
  | coro r ih =>
    intro e he
    rcases ha : awaitAll r with ⟨ev, v⟩
    rw [awaitAll, ha] at he
    rcases List.mem_cons.mp he with hk | hk
    · exact hk
    · exact ih e (by rw [ha]; exact hk)
  | future r ih =>
    intro e he
    rcases ha : awaitAll r with ⟨ev, v⟩
    rw [awaitAll, ha] at he
    rcases List.mem_cons.mp he with hk | hk
    · exact hk
    · exact ih e (by rw [ha]; exact hk)

theorem exec_method_inv (st : EngState) (m : Method) (st' : EngState)
    (ev : List Event) (res : Except Err RVal)
    (h : exec_method st m = (st', ev, res)) :
    st.nextId ≤ st'.nextId ∧ st'.ensure_type = st.ensure_type ∧
    st'.loader_filters = st.loader_filters ∧
    (∀ k i, Event.loaderCreated k i ∈ ev → st.nextId ≤ i ∧ i < st'.nextId) ∧
    (∀ msg, res ≠ Except.error (Err.MissingAnnotationError msg)) := by
  rw [exec_method] at h
  rcases hp : execParams st m.params with ⟨stE, evE, resE⟩
  rw [hp] at h
  obtain ⟨a1, a2, a3, a4, a5, a6, a7, a8, a9, a10⟩ :=
    execParams_inv m.params st stE evE resE hp
  cases resE with
  | ok bs =>
    simp at h
    obtain ⟨h1, h2, h3⟩ := h
    subst h1; subst h2
    exact ⟨a1, a2, a3, a4, by simp [← h3]⟩
  | error e =>
    simp at h
    obtain ⟨h1, h2, h3⟩ := h
    subst h1; subst h2; subst h3
    refine ⟨a1, a2, a3, a4, ?_⟩
    intro msg hmsg
    injection hmsg with he
    exact a10 msg (by rw [he])

theorem runPosts_inv :
    ∀ (names : List String) (store : Store) (r : Nat) (store' : Store)
      (ev : List Event) (res : Except Err Unit),
      runPosts store r names = (store', ev, res) →
      store'.map objShape = store.map objShape ∧
      (∀ e ∈ ev, ∃ rr hh, e = Event.hookCalled rr hh) ∧
      (∀ msg, res ≠ Except.error (Err.MissingAnnotationError msg)) := by
  intro names
  induction names with
  | nil =>
    intro store r store' ev res h
    simp [runPosts] at h
    obtain ⟨h1, h2, h3⟩ := h
    subst h1; subst h2; subst h3
    simp
  | cons name rest ih =>
    intro store r store' ev res h
    cases hobj : getObj store r with
    | none =>
      simp [runPosts, hobj] at h
      obtain ⟨h1, h2, h3⟩ := h
      subst h1; subst h2; subst h3
      simp
    | some target =>
      by_cases hhas : pyHasattr target (pyReplace name POST_PREFIX) = true
      · cases hpost : lookupStr target.posts name with
        | none =>
          simp [runPosts, hobj, hhas, hpost] at h
          obtain ⟨h1, h2, h3⟩ := h
          subst h1; subst h2; subst h3
          simp
        | some hook =>
          rcases hrec : runPosts (setObj store r { target with
              attrs := applyMuts hook.muts target.attrs }) r rest with
            ⟨storeR, evR, resR⟩
          simp [runPosts, hobj, hhas, hpost, hrec] at h
          obtain ⟨h1, h2, h3⟩ := h
          subst h1; subst h2; subst h3
          obtain ⟨b1, b2, b3⟩ := ih _ r _ _ _ hrec
          refine ⟨?_, ?_, b3⟩
          · rw [b1]
            exact setObj_map_shape store r _ target hobj rfl
          · intro e he
            rcases List.mem_cons.mp he with hk | hk
            · exact ⟨_, _, hk⟩
            · exact b2 e hk
      · have hhas' : pyHasattr target (pyReplace name POST_PREFIX) = false := by
          revert hhas
          cases pyHasattr target (pyReplace name POST_PREFIX) <;> simp
        simp [runPosts, hobj, hhas'] at h
        obtain ⟨h1, h2, h3⟩ := h
        subst h1; subst h2; subst h3
        simp

/-- The run invariant of one engine call: monotone allocator, preserved
flags and configuration table, construction-event identities within
the allocator window, object shapes (declared resolvers/hooks)
untouched, and no `MissingAnnotationError` when strict mode is off. -/
def StepInv (st st' : EngState) (store store' : Store) (ev : List Event)
    (res : Except Err PyVal) : Prop :=
  st.nextId ≤ st'.nextId ∧
  st'.ensure_type = st.ensure_type ∧
  st'.loader_filters = st.loader_filters ∧
  (∀ k i, Event.loaderCreated k i ∈ ev → st.nextId ≤ i ∧ i < st'.nextId) ∧
  store'.map objShape = store.map objShape ∧
  (st.ensure_type = false → ∀ msg, res ≠ Except.error (Err.MissingAnnotationError msg))

theorem stepInv_comp {st st1 st2 : EngState} {store store1 store2 : Store}
    {ev1 ev2 : List Event} {res1 res2 : Except Err PyVal}
    (h1 : StepInv st st1 store store1 ev1 res1)
    (h2 : StepInv st1 st2 store1 store2 ev2 res2) :
    StepInv st st2 store store2 (ev1 ++ ev2) res2 := by
  obtain ⟨a1, a2, a3, a4, a5, a6⟩ := h1
  obtain ⟨b1, b2, b3, b4, b5, b6⟩ := h2
  refine ⟨le_trans a1 b1, by rw [b2, a2], by rw [b3, a3], ?_, by rw [b5, a5], ?_⟩
  · intro k i hk
    rcases List.mem_append.mp hk with hk | hk
    · have := a4 k i hk
      omega
    · have := b4 k i hk
      omega
  · intro hf
    exact b6 (by rw [a2, hf])

theorem stepInv_refl (st : EngState) (store : Store) (res : Except Err PyVal)
    (hres : ∀ msg, res ≠ Except.error (Err.MissingAnnotationError msg)) :
    StepInv st st store store [] res :=
  ⟨le_refl _, rfl, rfl, by simp, rfl, fun _ => hres⟩

theorem step_inv :
    ∀ (n : Nat) (st : EngState) (store : Store) (c : Call)
      (st' : EngState) (store' : Store) (ev : List Event)
      (res : Except Err PyVal),
      step n st store c = (st', store', ev, res) →
      StepInv st st' store store' ev res := by
  intro n
  induction n with
  | zero =>
    intro st store c st' store' ev res h
    simp [step] at h
    obtain ⟨h1, h2, h3, h4⟩ := h
    subst h1; subst h2; subst h3; subst h4
    exact stepInv_refl st store _ (by simp)
  | succ n ih =>
    intro st store c st' store' ev res h
    cases c with
    | resolve v =>
      cases v with
      | none =>
        simp [step, is_acceptable_type] at h
        obtain ⟨h1, h2, h3, h4⟩ := h
        subst h1; subst h2; subst h3; subst h4
        exact stepInv_refl st store _ (by simp)
      | pybool b =>
        simp [step, is_acceptable_type] at h
        obtain ⟨h1, h2, h3, h4⟩ := h
        subst h1; subst h2; subst h3; subst h4
        exact stepInv_refl st store _ (by simp)
      | int i =>
        simp [step, is_acceptable_type] at h
        obtain ⟨h1, h2, h3, h4⟩ := h
        subst h1; subst h2; subst h3; subst h4
        exact stepInv_refl st store _ (by simp)
      | str s =>
        simp [step, is_acceptable_type] at h
        obtain ⟨h1, h2, h3, h4⟩ := h
        subst h1; subst h2; subst h3; subst h4
        exact stepInv_refl st store _ (by simp)
      | pylist es =>
        rcases h1 : step n st store (Call.resolveElems es) with ⟨st1, store1, ev1, res1⟩
        have hI := ih st store (Call.resolveElems es) st1 store1 ev1 res1 h1
        cases res1 with
        | error e =>
          simp [step, h1] at h
          obtain ⟨g1, g2, g3, g4⟩ := h
          subst g1; subst g2; subst g3; subst g4
          exact hI
        | ok u =>
          simp [step, h1, is_acceptable_type] at h
          obtain ⟨g1, g2, g3, g4⟩ := h
          subst g1; subst g2; subst g3; subst g4
          obtain ⟨a1, a2, a3, a4, a5, a6⟩ := hI
          exact ⟨a1, a2, a3, a4, a5, fun _ => by simp⟩
      | pytuple es =>
        rcases h1 : step n st store (Call.resolveElems es) with ⟨st1, store1, ev1, res1⟩
        have hI := ih st store (Call.resolveElems es) st1 store1 ev1 res1 h1
        cases res1 with
        | error e =>
          simp [step, h1] at h
          obtain ⟨g1, g2, g3, g4⟩ := h
          subst g1; subst g2; subst g3; subst g4
          exact hI
        | ok u =>
          simp [step, h1, is_acceptable_type] at h
          obtain ⟨g1, g2, g3, g4⟩ := h
          subst g1; subst g2; subst g3; subst g4
          obtain ⟨a1, a2, a3, a4, a5, a6⟩ := hI
          exact ⟨a1, a2, a3, a4, a5, fun _ => by simp⟩
      | obj r =>
        cases hobj : getObj store r with
        | none =>
          simp [step, is_acceptable_type, hobj] at h
          obtain ⟨g1, g2, g3, g4⟩ := h
          subst g1; subst g2; subst g3; subst g4
          exact stepInv_refl st store _ (by simp)
        | some target =>
          rcases h1 : step n st store
              (Call.resolveFields r (iter_over_object_resolvers target)) with
            ⟨st2, store2, ev2, res2⟩
          have hI := ih st store _ st2 store2 ev2 res2 h1
          obtain ⟨a1, a2, a3, a4, a5, a6⟩ := hI
          cases res2 with
          | error e =>
            simp [step, is_acceptable_type, hobj, h1] at h
            obtain ⟨g1, g2, g3, g4⟩ := h
            subst g1; subst g2; subst g3; subst g4
            exact ⟨a1, a2, a3, a4, a5, a6⟩
          | ok u =>
            cases hcur : getObj store2 r with
            | none =>
              simp [step, is_acceptable_type, hobj, h1, hcur] at h
              obtain ⟨g1, g2, g3, g4⟩ := h
              subst g1; subst g2; subst g3; subst g4
              exact ⟨a1, a2, a3, a4, a5, fun _ => by simp⟩
            | some target2 =>
              rcases h2 : runPosts store2 r (iter_over_object_post_methods target2)
                with ⟨store3, ev3, res3⟩
              obtain ⟨b1, b2, b3⟩ := runPosts_inv _ _ _ _ _ _ h2
              cases res3 with
              | error e =>
                simp [step, is_acceptable_type, hobj, h1, hcur, h2] at h
                obtain ⟨g1, g2, g3, g4⟩ := h
                subst g1; subst g2; subst g3; subst g4
                refine ⟨a1, a2, a3, ?_, by rw [b1, a5], ?_⟩
                · intro k i hk
                  rcases List.mem_append.mp hk with hk | hk
                  · exact a4 k i hk
                  · obtain ⟨rr, hh, he⟩ := b2 _ hk
                    simp at he
                · intro hf msg hmsg
                  injection hmsg with he'
                  exact b3 msg (by rw [he'])
              | ok u2 =>
                simp [step, is_acceptable_type, hobj, h1, hcur, h2] at h
                obtain ⟨g1, g2, g3, g4⟩ := h
                subst g1; subst g2; subst g3; subst g4
                refine ⟨a1, a2, a3, ?_, by rw [b1, a5], fun _ => by simp⟩
                intro k i hk
                rcases List.mem_append.mp hk with hk | hk
                · exact a4 k i hk
                · obtain ⟨rr, hh, he⟩ := b2 _ hk
                  simp at he
    | resolveElems es =>
      cases es with
      | nil =>
        simp [step] at h
        obtain ⟨g1, g2, g3, g4⟩ := h
        subst g1; subst g2; subst g3; subst g4
        exact stepInv_refl st store _ (by simp)
      | cons e es =>
        rcases h1 : step n st store (Call.resolve e) with ⟨st1, store1, ev1, res1⟩
        have hI1 := ih st store _ st1 store1 ev1 res1 h1
        cases res1 with
        | error err =>
          simp [step, h1] at h
          obtain ⟨g1, g2, g3, g4⟩ := h
          subst g1; subst g2; subst g3; subst g4
          exact hI1
        | ok u =>
          rcases h2 : step n st1 store1 (Call.resolveElems es) with
            ⟨st2, store2, ev2, res2⟩
          have hI2 := ih st1 store1 _ st2 store2 ev2 res2 h2
          simp [step, h1, h2] at h
          obtain ⟨g1, g2, g3, g4⟩ := h
          subst g1; subst g2; subst g3; subst g4
          exact stepInv_comp hI1 hI2
    | resolveFields r fs =>
      cases fs with
      | nil =>
        simp [step] at h
        obtain ⟨g1, g2, g3, g4⟩ := h
        subst g1; subst g2; subst g3; subst g4
        exact stepInv_refl st store _ (by simp)
      | cons f fs =>
        rcases h1 : step n st store (Call.resolveObj r f) with ⟨st1, store1, ev1, res1⟩
        have hI1 := ih st store _ st1 store1 ev1 res1 h1
        cases res1 with
        | error err =>
          simp [step, h1] at h
          obtain ⟨g1, g2, g3, g4⟩ := h
          subst g1; subst g2; subst g3; subst g4
          exact hI1
        | ok u =>
          rcases h2 : step n st1 store1 (Call.resolveFields r fs) with
            ⟨st2, store2, ev2, res2⟩
          have hI2 := ih st1 store1 _ st2 store2 ev2 res2 h2
          simp [step, h1, h2] at h
          obtain ⟨g1, g2, g3, g4⟩ := h
          subst g1; subst g2; subst g3; subst g4
          exact stepInv_comp hI1 hI2
    | resolveObj r field =>
      cases hobj : getObj store r with
      | none =>
        simp [step, hobj] at h
        obtain ⟨g1, g2, g3, g4⟩ := h
        subst g1; subst g2; subst g3; subst g4
        exact stepInv_refl st store _ (by simp)
      | some target =>
        cases hres : lookupStr target.resolvers field with
        | none =>
          simp [step, hobj, hres] at h
          obtain ⟨g1, g2, g3, g4⟩ := h
          subst g1; subst g2; subst g3; subst g4
          exact stepInv_refl st store _ (by simp)
        | some item =>
          rcases hexec : exec_method st item with ⟨st1, evP, resE⟩
          obtain ⟨e1, e2, e3, e4, e5⟩ := exec_method_inv st item st1 evP resE hexec
          cases resE with
          | error e =>
            simp [step, hobj, hres, hexec] at h
            obtain ⟨g1, g2, g3, g4⟩ := h
            subst g1; subst g2; subst g3; subst g4
            refine ⟨e1, e2, e3, e4, rfl, fun hf msg hmsg => ?_⟩
            injection hmsg with he'
            exact e5 msg (by rw [he'])
          | ok val =>
            by_cases hhas : pyHasattr target (pyReplace field PREFIX) = true
            · by_cases hens : (st1.ensure_type && item.annots.isEmpty) = true
              · simp [step, hobj, hres, hexec, hhas, hens] at h
                obtain ⟨g1, g2, g3, g4⟩ := h
                subst g1; subst g2; subst g3; subst g4
                refine ⟨e1, e2, e3, ?_, rfl, ?_⟩
                · intro k i hk
                  rcases List.mem_append.mp hk with hk | hk
                  · exact e4 k i hk
                  · simp at hk
                · intro hf msg hmsg
                  rw [Bool.and_eq_true] at hens
                  rw [e2, hf] at hens
                  exact absurd hens.1 (by simp)
              · have hensF : (st1.ensure_type && item.annots.isEmpty) = false := by
                  revert hens
                  cases (st1.ensure_type && item.annots.isEmpty) <;> simp
                rcases hawait : awaitAll val with ⟨evA, v₀⟩
                have hAev : ∀ e ∈ evA, e = Event.awaited := by
                  intro e he
                  exact awaitAll_events val e (by rw [hawait]; exact he)
                rcases h2 : step n st1 store (Call.resolve v₀) with
                  ⟨st2, store2, ev2, res2⟩
                have hI2 := ih st1 store _ st2 store2 ev2 res2 h2
                obtain ⟨c1, c2, c3, c4, c5, c6⟩ := hI2
                cases res2 with
                | error e =>
                  simp [step, hobj, hres, hexec, hhas, hensF, hawait, h2] at h
                  obtain ⟨g1, g2, g3, g4⟩ := h
                  subst g1; subst g2; subst g3; subst g4
                  refine ⟨le_trans e1 c1, by rw [c2, e2], by rw [c3, e3], ?_, c5,
                    fun hf msg => c6 (by rw [e2, hf]) msg⟩
                  intro k i hk
                  simp at hk
                  rcases hk with hk | hk | hk
                  · have := e4 k i hk
                    omega
                  · have := hAev _ hk
                    simp at this
                  · have := c4 k i hk
                    have he1 : st.nextId ≤ st1.nextId := e1
                    omega
                | ok v1 =>
                  cases hcur : getObj store2 r with
                  | none =>
                    simp [step, hobj, hres, hexec, hhas, hensF, hawait, h2, hcur] at h
                    obtain ⟨g1, g2, g3, g4⟩ := h
                    subst g1; subst g2; subst g3; subst g4
                    refine ⟨le_trans e1 c1, by rw [c2, e2], by rw [c3, e3], ?_, c5,
                      fun _ => by simp⟩
                    intro k i hk
                    simp at hk
                    rcases hk with hk | hk | hk
                    · have := e4 k i hk
                      omega
                    · have := hAev _ hk
                      simp at this
                    · have := c4 k i hk
                      have he1 : st.nextId ≤ st1.nextId := e1
                      omega
                  | some tcur =>
                    simp [step, hobj, hres, hexec, hhas, hensF, hawait, h2, hcur] at h
                    obtain ⟨g1, g2, g3, g4⟩ := h
                    subst g1; subst g2; subst g3; subst g4
                    refine ⟨le_trans e1 c1, by rw [c2, e2], by rw [c3, e3], ?_, ?_,
                      fun _ => by simp⟩
                    · intro k i hk
                      simp at hk
                      rcases hk with hk | hk | hk
                      · have := e4 k i hk
                        omega
                      · have := hAev _ hk
                        simp at this
                      · have := c4 k i hk
                        have he1 : st.nextId ≤ st1.nextId := e1
                        omega
                    · exact (setObj_map_shape store2 r ⟨setAttrList tcur.attrs (pyReplace field PREFIX) v1, tcur.resolvers, tcur.posts⟩ tcur hcur rfl).trans c5
            · have hhasF : pyHasattr target (pyReplace field PREFIX) = false := by
                revert hhas
                cases pyHasattr target (pyReplace field PREFIX) <;> simp
              simp [step, hobj, hres, hexec, hhasF] at h
              obtain ⟨g1, g2, g3, g4⟩ := h
              subst g1; subst g2; subst g3; subst g4
              refine ⟨e1, e2, e3, ?_, rfl, fun _ => by simp⟩
              intro k i hk
              rcases List.mem_append.mp hk with hk | hk
              · exact e4 k i hk
              · simp at hk

/-! ## C6: fresh Invocation Context per top-level call -/

theorem execParams_ctx_new :
    ∀ (ps : List Param) (st st' : EngState) (ev : List Event)
      (res : Except Err (List (String × LoaderInst))),
      execParams st ps = (st', ev, res) →
      ∀ k l, lookupStr st'.ctx k = some l →
        lookupStr st.ctx k = some l ∨ Event.loaderCreated k l.id ∈ ev := by
  intro ps
  induction ps with
  | nil =>
    intro st st' ev res h k l hk
    simp [execParams] at h
    obtain ⟨h1, h2, h3⟩ := h
    subst h1
    exact Or.inl hk
  | cons p ps ih =>
    intro st st' ev res h k l hk
    cases hdep : p.dep with
    | none =>
      rw [execParams, hdep] at h
      exact ih st st' ev res h k l hk
    | some d =>
      cases hlook : lookupStr st.ctx (cacheKey d) with
      | some hit =>
        rcases hrec : execParams st ps with ⟨stR, evR, resR⟩
        cases resR with
        | ok binds =>
          simp [execParams, hdep, hlook, hrec] at h
          obtain ⟨h1, h2, h3⟩ := h
          subst h1; subst h2
          exact ih st stR evR _ hrec k l hk
        | error e =>
          simp [execParams, hdep, hlook, hrec] at h
          obtain ⟨h1, h2, h3⟩ := h
          subst h1; subst h2
          exact ih st stR evR _ hrec k l hk
      | none =>
        cases hcls : d.isClass with
        | true =>
          rcases hass : assignFields (cacheKey d)
              ((lookupCls st.loader_filters d).getD []) ⟨st.nextId, d, []⟩
              d.classFields with ⟨inst, resA⟩
          cases resA with
          | error e =>
            simp [execParams, hdep, hlook, hcls, hass] at h
            obtain ⟨h1, h2, h3⟩ := h
            subst h1
            exact Or.inl hk
          | ok u =>
            obtain ⟨hid0, hdefn0, -⟩ := assignFields_inst _ _ _ _ _ _ hass
            have hid : inst.id = st.nextId := hid0
            rcases hrec : execParams
                { st with ctx := (cacheKey d, inst) :: st.ctx,
                          nextId := st.nextId + 1 } ps with ⟨stR, evR, resR⟩
            have hstep := ih _ stR evR resR hrec k l
            cases resR with
            | ok binds =>
              simp [execParams, hdep, hlook, hcls, hass, hrec] at h
              obtain ⟨h1, h2, h3⟩ := h
              subst h1; subst h2
              rcases hstep hk with hd | hd
              · have hd' : lookupStr ((cacheKey d, inst) :: st.ctx) k = some l := hd
                rw [lookupStr_cons] at hd'
                by_cases hkk : cacheKey d = k
                · rw [if_pos hkk] at hd'
                  injection hd' with hd2
                  subst hd2
                  right
                  rw [← hkk, hid]
                  exact List.mem_cons_self _ _
                · rw [if_neg hkk] at hd'
                  exact Or.inl hd'
              · right
                exact List.mem_cons_of_mem _ hd
            | error e =>
              simp [execParams, hdep, hlook, hcls, hass, hrec] at h
              obtain ⟨h1, h2, h3⟩ := h
              subst h1; subst h2
              rcases hstep hk with hd | hd
              · have hd' : lookupStr ((cacheKey d, inst) :: st.ctx) k = some l := hd
                rw [lookupStr_cons] at hd'
                by_cases hkk : cacheKey d = k
                · rw [if_pos hkk] at hd'
                  injection hd' with hd2
                  subst hd2
                  right
                  rw [← hkk, hid]
                  exact List.mem_cons_self _ _
                · rw [if_neg hkk] at hd'
                  exact Or.inl hd'
              · right
                exact List.mem_cons_of_mem _ hd
        | false =>
          rcases hrec : execParams
              { st with ctx := (cacheKey d, ⟨st.nextId, d, []⟩) :: st.ctx,
                        nextId := st.nextId + 1 } ps with ⟨stR, evR, resR⟩
          have hstep := ih _ stR evR resR hrec k l
          cases resR with
          | ok binds =>
            simp [execParams, hdep, hlook, hcls, hrec] at h
            obtain ⟨h1, h2, h3⟩ := h
            subst h1; subst h2
            rcases hstep hk with hd | hd
            · have hd' : lookupStr
                  ((cacheKey d, (⟨st.nextId, d, []⟩ : LoaderInst)) :: st.ctx) k
                  = some l := hd
              rw [lookupStr_cons] at hd'
              by_cases hkk : cacheKey d = k
              · rw [if_pos hkk] at hd'
                injection hd' with hd2
                subst hd2
                right
                rw [← hkk]
                exact List.mem_cons_self _ _
              · rw [if_neg hkk] at hd'
                exact Or.inl hd'
            · right
              exact List.mem_cons_of_mem _ hd
          | error e =>
            simp [execParams, hdep, hlook, hcls, hrec] at h
            obtain ⟨h1, h2, h3⟩ := h
            subst h1; subst h2
            rcases hstep hk with hd | hd
            · have hd' : lookupStr
                  ((cacheKey d, (⟨st.nextId, d, []⟩ : LoaderInst)) :: st.ctx) k
                  = some l := hd
              rw [lookupStr_cons] at hd'
              by_cases hkk : cacheKey d = k
              · rw [if_pos hkk] at hd'
                injection hd' with hd2
                subst hd2
                right
                rw [← hkk]
                exact List.mem_cons_self _ _
              · rw [if_neg hkk] at hd'
                exact Or.inl hd'
            · right
              exact List.mem_cons_of_mem _ hd

/-- C6: the Invocation Context is created fresh per top-level resolve
call and never shared across calls.  For two consecutive top-level
calls (the second starting at the allocator position the first ended
at, so instance identities are globally comparable): (1) each call's
Resolver starts with an empty instance cache; (2) every instance
constructed in call one has identity below the first call's final
allocator; (3) every instance constructed in call two has identity at
or above it; (4) hence no instance constructed in call one is the
instance constructed in call two; (5) in a call whose cache starts
empty, every loader bound to a resolver parameter was freshly
constructed within that same call. -/
theorem fresh_context_per_call
    (lf : List (LoaderDef × List (String × PyVal))) (et : Bool)
    (fuel fuel' n₀ : Nat) (store store₁ store₂ : Store) (v v' : PyVal)
    (st₁ st₂ : EngState) (ev₁ ev₂ : List Event) (r₁ r₂ : Except Err PyVal)
    (h₁ : resolveEntry lf et fuel n₀ store v = (st₁, store₁, ev₁, r₁))
    (h₂ : resolveEntry lf et fuel' st₁.nextId store₁ v' = (st₂, store₂, ev₂, r₂)) :
    (Resolver.init lf et n₀).ctx = [] ∧
    (∀ k i, Event.loaderCreated k i ∈ ev₁ → n₀ ≤ i ∧ i < st₁.nextId) ∧
    (∀ k i, Event.loaderCreated k i ∈ ev₂ → st₁.nextId ≤ i) ∧
    (∀ k i k' i', Event.loaderCreated k i ∈ ev₁ →
        Event.loaderCreated k' i' ∈ ev₂ → i ≠ i') ∧
    (∀ (st : EngState) (ps : List Param) (st' : EngState) (ev : List Event)
        (binds : List (String × LoaderInst)),
        st.ctx = [] → CacheWF st →
        execParams st ps = (st', ev, Except.ok binds) →
        ∀ b ∈ binds, Event.loaderCreated (cacheKey b.2.defn) b.2.id ∈ ev) := by
  have hI₁ := step_inv fuel (Resolver.init lf et n₀) store (Call.resolve v)
    st₁ store₁ ev₁ r₁ h₁
  have hI₂ := step_inv fuel' (Resolver.init lf et st₁.nextId) store₁
    (Call.resolve v') st₂ store₂ ev₂ r₂ h₂
  have hr₁ : ∀ k i, Event.loaderCreated k i ∈ ev₁ → n₀ ≤ i ∧ i < st₁.nextId :=
    hI₁.2.2.2.1
  have hr₂ : ∀ k i, Event.loaderCreated k i ∈ ev₂ →
      st₁.nextId ≤ i ∧ i < st₂.nextId := hI₂.2.2.2.1
  refine ⟨rfl, hr₁, fun k i hk => (hr₂ k i hk).1, ?_, ?_⟩
  · intro k i k' i' hk hk'
    have q1 := hr₁ k i hk
    have q2 := hr₂ k' i' hk'
    omega
  · intro st ps st' ev binds hctx hwf hrun b hb
    obtain ⟨a1, a2, a3, a4, a5, a6, a7, a8, a9, a10⟩ :=
      execParams_inv ps st st' ev _ hrun
    have hfin := (a9 hwf).2 binds rfl b hb
    rcases execParams_ctx_new ps st st' ev _ hrun _ _ hfin with hd | hd
    · rw [hctx] at hd
      simp [lookupStr] at hd
    · exact hd

def mDep : Method :=
  { params := [⟨"loader", some dShared⟩], annots := [],
    body := fun _ => RVal.ret PyVal.none }

def objDep : Object :=
  { attrs := [("books", PyVal.none)],
    resolvers := [("resolve_books", mDep)], posts := [] }

def stAfterCall1 : EngState :=
  { ctx := [(cacheKey dShared, ⟨0, dShared, []⟩)], loader_filters := [],
    ensure_type := false, nextId := 1 }

def stAfterCall2 : EngState :=
  { ctx := [(cacheKey dShared, ⟨1, dShared, []⟩)], loader_filters := [],
    ensure_type := false, nextId := 2 }

/-- Witness for C6: running the same dependency-declaring object through
two consecutive top-level calls constructs instance 0 in the first call
and instance 1 in the second — distinct instances, one per call — and a
call starting with an empty cache constructs what it binds. -/
theorem fresh_context_per_call_witness :
    (Resolver.init [] false (0 : Nat)).ctx = [] ∧ (0 : Nat) ≠ 1 ∧
    Event.loaderCreated (cacheKey dShared) 0
      ∈ [Event.loaderCreated (cacheKey dShared) 0] := by
  have h := fresh_context_per_call [] false 6 6 0 [objDep] [objDep] [objDep]
    (PyVal.obj 0) (PyVal.obj 0) stAfterCall1 stAfterCall2
    [Event.loaderCreated (cacheKey dShared) 0,
     Event.resolverInvoked "resolve_books",
     Event.fieldResolved 0 "resolve_books"]
    [Event.loaderCreated (cacheKey dShared) 1,
     Event.resolverInvoked "resolve_books",
     Event.fieldResolved 0 "resolve_books"]
    (Except.ok (PyVal.obj 0)) (Except.ok (PyVal.obj 0)) rfl rfl
  refine ⟨h.1, ?_, ?_⟩
  · exact h.2.2.2.1 (cacheKey dShared) 0 (cacheKey dShared) 1
      (by simp) (by simp)
  · exact h.2.2.2.2 stEmpty psShared stShared
      [Event.loaderCreated (cacheKey dShared) 0] bindsShared rfl
      ⟨by simp [stEmpty, Resolver.init], by simp [stEmpty, Resolver.init]⟩ rfl
      ("p", instShared) (by simp [bindsShared])

/-! ## C7: the strict-typing check -/

/-- C7 (amended): with strict-typing mode enabled, resolving a field
whose resolver function has an *empty* annotations mapping (no
annotations at all — `if not item.__annotations__`) fails with
`MissingAnnotationError` (first clause); a resolver carrying any
annotation, even a parameter annotation with no return annotation,
passes the check.  With strict-typing mode disabled no such check is
performed: no run of the engine can produce `MissingAnnotationError`
(second clause). -/
theorem ensure_type_empty_annots :
    (∀ (n : Nat) (st : EngState) (store : Store) (r : Nat) (target : Object)
      (item : Method) (field : String) (st₁ : EngState) (evP : List Event)
      (rv : RVal),
      getObj store r = some target →
      lookupStr target.resolvers field = some item →
      exec_method st item = (st₁, evP, Except.ok rv) →
      pyHasattr target (pyReplace field PREFIX) = true →
      st₁.ensure_type = true → item.annots = [] →
      resolve_obj (n+1) st store r field
        = (st₁, store, evP ++ [Event.resolverInvoked field],
           Except.error (Err.MissingAnnotationError
             (field ++ ": return annotation is required")))) ∧
    (∀ (n : Nat) (st : EngState) (store : Store) (c : Call)
      (st' : EngState) (store' : Store) (ev : List Event)
      (res : Except Err PyVal),
      st.ensure_type = false →
      step n st store c = (st', store', ev, res) →
      ∀ msg, res ≠ Except.error (Err.MissingAnnotationError msg)) := by
  constructor
  · intro n st store r target item field st₁ evP rv hobj hres hexec hhas hensT hann
    show step (n+1) st store (Call.resolveObj r field) = _
    simp only [step, hobj, hres, hexec, hhas, hensT, hann]
    simp
  · intro n st store c st' store' ev res hf h msg
    exact (step_inv n st store c st' store' ev res h).2.2.2.2.2 hf msg

def mAnnotatedParam : Method :=
  { params := [], annots := ["loader"], body := fun _ => RVal.ret (PyVal.int 7) }

def objAnnotatedParam : Object :=
  { attrs := [("x", PyVal.none)],
    resolvers := [("resolve_x", mAnnotatedParam)], posts := [] }

/-- Counterexample for C7 as stated: strict mode is enabled and the
resolver carries no return-type annotation (its annotations mapping is
`["loader"]`, a parameter annotation only), yet resolution succeeds —
the code only checks whether the annotations mapping is empty
(`if not item.__annotations__`), not whether a return annotation
exists, contradicting the claim that such a resolver fails with
MissingReturnAnnotation. -/
theorem strict_mode_annots_cex :
    (resolve_obj 5 (Resolver.init [] true 0) [objAnnotatedParam] 0
        "resolve_x").2.2
      = ([Event.resolverInvoked "resolve_x", Event.fieldResolved 0 "resolve_x"],
         Except.ok PyVal.none) := rfl

def mNoAnnots : Method :=
  { params := [], annots := [], body := fun _ => RVal.ret (PyVal.int 7) }

def objNoAnnots : Object :=
  { attrs := [("x", PyVal.none)],
    resolvers := [("resolve_x", mNoAnnots)], posts := [] }

/-- Witness for the amended C7: strict mode plus a resolver with no
annotations at all fails with `MissingAnnotationError`. -/
theorem ensure_type_empty_annots_witness :
    resolve_obj 5 (Resolver.init [] true 0) [objNoAnnots] 0 "resolve_x"
      = (Resolver.init [] true 0, [objNoAnnots],
         [] ++ [Event.resolverInvoked "resolve_x"],
         Except.error (Err.MissingAnnotationError
           ("resolve_x" ++ ": return annotation is required"))) :=
  ensure_type_empty_annots.1 4 (Resolver.init [] true 0) [objNoAnnots] 0
    objNoAnnots mNoAnnots "resolve_x" (Resolver.init [] true 0) []
    (RVal.ret (PyVal.int 7)) rfl rfl rfl rfl rfl rfl

/-! ## C8: identity and no-op behaviour of `resolve` -/

/-- Is a value neither a Collection nor a Resolvable Object? -/
def isPlain : PyVal → Bool
  | PyVal.pylist _ => false
  | PyVal.pytuple _ => false
  | PyVal.obj _ => false
  | _ => true

/-- C8: `resolve` returns the very value it was given — mutation
happens in the store, never by replacing the value (first clause: any
successful run returns its input); a value that is neither a
Collection nor a Resolvable Object is returned unchanged with no
mutation, no events and no state change (second clause); empty
collections (third clause) and objects with no declared resolver
fields or hooks (fourth clause) resolve as complete no-ops. -/
theorem resolve_returns_same_value :
    (∀ (n : Nat) (st : EngState) (store : Store) (v : PyVal)
      (st' : EngState) (store' : Store) (ev : List Event) (v' : PyVal),
      resolve n st store v = (st', store', ev, Except.ok v') → v' = v) ∧
    (∀ (n : Nat) (st : EngState) (store : Store) (v : PyVal),
      isPlain v = true →
      resolve (n+1) st store v = (st, store, [], Except.ok v)) ∧
    (∀ (n : Nat) (st : EngState) (store : Store),
      resolve (n+2) st store (PyVal.pylist [])
        = (st, store, [], Except.ok (PyVal.pylist [])) ∧
      resolve (n+2) st store (PyVal.pytuple [])
        = (st, store, [], Except.ok (PyVal.pytuple []))) ∧
    (∀ (n : Nat) (st : EngState) (store : Store) (r : Nat) (o : Object),
      getObj store r = some o → o.resolvers = [] → o.posts = [] →
      resolve (n+2) st store (PyVal.obj r)
        = (st, store, [], Except.ok (PyVal.obj r))) := by
  refine ⟨?_, ?_, ?_, ?_⟩
  · intro n st store v st' store' ev v' h
    cases n with
    | zero => simp [resolve, step] at h
    | succ n =>
      cases v with
      | none =>
        simp [resolve, step, is_acceptable_type] at h
        obtain ⟨-, -, -, h4⟩ := h
        subst h4; rfl
      | pybool b =>
        simp [resolve, step, is_acceptable_type] at h
        obtain ⟨-, -, -, h4⟩ := h
        subst h4; rfl
      | int i =>
        simp [resolve, step, is_acceptable_type] at h
        obtain ⟨-, -, -, h4⟩ := h
        subst h4; rfl
      | str s =>
        simp [resolve, step, is_acceptable_type] at h
        obtain ⟨-, -, -, h4⟩ := h
        subst h4; rfl
      | pylist es =>
        rcases h1 : step n st store (Call.resolveElems es) with ⟨st1, store1, ev1, res1⟩
        cases res1 with
        | error e => simp [resolve, step, h1] at h
        | ok u =>
          simp [resolve, step, h1, is_acceptable_type] at h
          obtain ⟨-, -, -, h4⟩ := h
          subst h4; rfl
      | pytuple es =>
        rcases h1 : step n st store (Call.resolveElems es) with ⟨st1, store1, ev1, res1⟩
        cases res1 with
        | error e => simp [resolve, step, h1] at h
        | ok u =>
          simp [resolve, step, h1, is_acceptable_type] at h
          obtain ⟨-, -, -, h4⟩ := h
          subst h4; rfl
      | obj r =>
        cases hobj : getObj store r with
        | none => simp [resolve, step, is_acceptable_type, hobj] at h
        | some target =>
          rcases h1 : step n st store
              (Call.resolveFields r (iter_over_object_resolvers target)) with
            ⟨st2, store2, ev2, res2⟩
          cases res2 with
          | error e => simp [resolve, step, is_acceptable_type, hobj, h1] at h
          | ok u =>
            cases hcur : getObj store2 r with
            | none => simp [resolve, step, is_acceptable_type, hobj, h1, hcur] at h
            | some target2 =>
              rcases h2 : runPosts store2 r
                  (iter_over_object_post_methods target2) with ⟨store3, ev3, res3⟩
              cases res3 with
              | error e =>
                simp [resolve, step, is_acceptable_type, hobj, h1, hcur, h2] at h
              | ok u2 =>
                simp [resolve, step, is_acceptable_type, hobj, h1, hcur, h2] at h
                obtain ⟨-, -, -, h4⟩ := h
                subst h4; rfl
  · intro n st store v hp
    cases v with
    | none => simp [resolve, step, is_acceptable_type]
    | pybool b => simp [resolve, step, is_acceptable_type]
    | int i => simp [resolve, step, is_acceptable_type]
    | str s => simp [resolve, step, is_acceptable_type]
    | pylist es => simp [isPlain] at hp
    | pytuple es => simp [isPlain] at hp
    | obj r => simp [isPlain] at hp
  · intro n st store
    constructor <;> simp [resolve, step, is_acceptable_type]
  · intro n st store r o hobj hres hposts
    simp [resolve, step, is_acceptable_type, hobj, hres, hposts,
      iter_over_object_resolvers, iter_over_object_post_methods, runPosts]

def objBare : Object :=
  { attrs := [("a", PyVal.int 1)], resolvers := [], posts := [] }

/-- Witness for C8 at concrete inputs: a plain scalar, an empty list
and a field-free, hook-free object all resolve as no-ops returning the
input value. -/
theorem resolve_returns_same_value_witness :
    resolve 1 stEmpty [] (PyVal.int 3) = (stEmpty, [], [], Except.ok (PyVal.int 3)) ∧
    resolve 2 stEmpty [] (PyVal.pylist [])
      = (stEmpty, [], [], Except.ok (PyVal.pylist [])) ∧
    resolve 2 stEmpty [objBare] (PyVal.obj 0)
      = (stEmpty, [objBare], [], Except.ok (PyVal.obj 0)) :=
  ⟨resolve_returns_same_value.2.1 0 stEmpty [] (PyVal.int 3) rfl,
   (resolve_returns_same_value.2.2.1 0 stEmpty []).1,
   resolve_returns_same_value.2.2.2 0 stEmpty [objBare] 0 objBare rfl rfl rfl⟩

/-! ## C9: the Collection branch -/

/-- One admissible schedule of the `asyncio.gather` fan-out over a
collection's elements: every element is resolved through a recursive
`resolve` call, threading state and store, and every one of them must
complete before the chain does. -/
inductive ElemChain :
    Nat → EngState → Store → List PyVal → EngState → Store → List Event → Prop
  | nil {n : Nat} {st : EngState} {store : Store} :
      ElemChain (n+1) st store [] st store []
  | cons {n : Nat} {st st₁ st₂ : EngState} {store store₁ store₂ : Store}
      {e : PyVal} {es : List PyVal} {ev₁ ev₂ : List Event} {v : PyVal} :
      step n st store (Call.resolve e) = (st₁, store₁, ev₁, Except.ok v) →
      ElemChain n st₁ store₁ es st₂ store₂ ev₂ →
      ElemChain (n+1) st store (e :: es) st₂ store₂ (ev₁ ++ ev₂)

/-- C9: for a list or tuple, every element is recursively resolved (a
successful collection pass is exactly a chain of recursive `resolve`
calls over all elements — first clause — so all elements complete
before this level returns); and the Collection branch does not
early-return: `resolve` still runs the Resolvable Object
classification on the same value afterwards, which classifies no list
or tuple as an object (third clause), so for a genuine collection the
object stage is the identity and the level returns the elements-pass
outcome unchanged (second clause). -/
theorem collection_elements_all_resolved :
    (∀ (n : Nat) (st : EngState) (store : Store) (es : List PyVal)
      (st' : EngState) (store' : Store) (ev : List Event) (u : PyVal),
      step n st store (Call.resolveElems es) = (st', store', ev, Except.ok u) →
      ElemChain n st store es st' store' ev) ∧
    (∀ (n : Nat) (st : EngState) (store : Store) (es : List PyVal)
      (st₁ : EngState) (store₁ : Store) (ev₁ : List Event) (u : PyVal),
      step n st store (Call.resolveElems es) = (st₁, store₁, ev₁, Except.ok u) →
      resolve (n+1) st store (PyVal.pylist es)
        = (st₁, store₁, ev₁, Except.ok (PyVal.pylist es)) ∧
      resolve (n+1) st store (PyVal.pytuple es)
        = (st₁, store₁, ev₁, Except.ok (PyVal.pytuple es))) ∧
    (∀ es : List PyVal, is_acceptable_type (PyVal.pylist es) = false ∧
      is_acceptable_type (PyVal.pytuple es) = false) := by
  refine ⟨?_, ?_, fun es => ⟨rfl, rfl⟩⟩
  · intro n
    induction n with
    | zero =>
      intro st store es st' store' ev u h
      simp [step] at h
    | succ n ih =>
      intro st store es st' store' ev u h
      cases es with
      | nil =>
        simp [step] at h
        obtain ⟨h1, h2, h3, -⟩ := h
        subst h1; subst h2; subst h3
        exact ElemChain.nil
      | cons e es =>
        rcases h1 : step n st store (Call.resolve e) with ⟨st1, store1, ev1, res1⟩
        cases res1 with
        | error err => simp [step, h1] at h
        | ok v =>
          rcases h2 : step n st1 store1 (Call.resolveElems es) with
            ⟨st2, store2, ev2, res2⟩
          cases res2 with
          | error err => simp [step, h1, h2] at h
          | ok u2 =>
            simp [step, h1, h2] at h
            obtain ⟨g1, g2, g3, -⟩ := h
            subst g1; subst g2; subst g3
            exact ElemChain.cons h1 (ih st1 store1 es st2 store2 ev2 u2 h2)
  · intro n st store es st₁ store₁ ev₁ u h
    constructor <;> simp [resolve, step, h, is_acceptable_type]

/-- Witness for C9: a two-element list of scalars resolves every
element (the chain exists) and the collection pass's outcome carries
through the object-classification stage unchanged. -/
theorem collection_elements_all_resolved_witness :
    ElemChain 3 stEmpty [] [PyVal.int 1, PyVal.int 2] stEmpty [] [] ∧
    resolve 4 stEmpty [] (PyVal.pylist [PyVal.int 1, PyVal.int 2])
      = (stEmpty, [], [], Except.ok (PyVal.pylist [PyVal.int 1, PyVal.int 2])) :=
  ⟨collection_elements_all_resolved.1 3 stEmpty [] [PyVal.int 1, PyVal.int 2]
    stEmpty [] [] PyVal.none rfl,
   (collection_elements_all_resolved.2.1 3 stEmpty [] [PyVal.int 1, PyVal.int 2]
    stEmpty [] [] PyVal.none rfl).1⟩

/-! ## C2: post-process hooks -/

theorem resolveObj_marks_field :
    ∀ (n : Nat) (st : EngState) (store : Store) (r : Nat) (f : String)
      (st' : EngState) (store' : Store) (ev : List Event) (u : PyVal),
      step n st store (Call.resolveObj r f) = (st', store', ev, Except.ok u) →
      Event.fieldResolved r f ∈ ev := by
  intro n st store r f st' store' ev u h
  cases n with
  | zero => simp [step] at h
  | succ n =>
    cases hobj : getObj store r with
    | none => simp [step, hobj] at h
    | some target =>
      cases hres : lookupStr target.resolvers f with
      | none => simp [step, hobj, hres] at h
      | some item =>
        rcases hexec : exec_method st item with ⟨st1, evP, resE⟩
        cases resE with
        | error e => simp [step, hobj, hres, hexec] at h
        | ok val =>
          by_cases hhas : pyHasattr target (pyReplace f PREFIX) = true
          · by_cases hens : (st1.ensure_type && item.annots.isEmpty) = true
            · simp [step, hobj, hres, hexec, hhas, hens] at h
            · have hensF : (st1.ensure_type && item.annots.isEmpty) = false := by
                revert hens
                cases (st1.ensure_type && item.annots.isEmpty) <;> simp
              rcases hawait : awaitAll val with ⟨evA, v₀⟩
              rcases h2 : step n st1 store (Call.resolve v₀) with
                ⟨st2, store2, ev2, res2⟩
              cases res2 with
              | error e =>
                simp [step, hobj, hres, hexec, hhas, hensF, hawait, h2] at h
              | ok v1 =>
                cases hcur : getObj store2 r with
                | none =>
                  simp [step, hobj, hres, hexec, hhas, hensF, hawait, h2, hcur] at h
                | some tcur =>
                  simp [step, hobj, hres, hexec, hhas, hensF, hawait, h2, hcur] at h
                  obtain ⟨-, -, g3, -⟩ := h
                  subst g3
                  simp
          · have hhasF : pyHasattr target (pyReplace f PREFIX) = false := by
              revert hhas
              cases pyHasattr target (pyReplace f PREFIX) <;> simp
            simp [step, hobj, hres, hexec, hhasF] at h

theorem resolveFields_complete :
    ∀ (n : Nat) (st : EngState) (store : Store) (r : Nat) (fs : List String)
      (st' : EngState) (store' : Store) (ev : List Event) (u : PyVal),
      step n st store (Call.resolveFields r fs) = (st', store', ev, Except.ok u) →
      ∀ f ∈ fs, Event.fieldResolved r f ∈ ev := by
  intro n
  induction n with
  | zero =>
    intro st store r fs st' store' ev u h
    simp [step] at h
  | succ n ih =>
    intro st store r fs st' store' ev u h f hf
    cases fs with
    | nil => simp at hf
    | cons f0 fs =>
      rcases h1 : step n st store (Call.resolveObj r f0) with ⟨st1, store1, ev1, res1⟩
      cases res1 with
      | error err => simp [step, h1] at h
      | ok v =>
        rcases h2 : step n st1 store1 (Call.resolveFields r fs) with
          ⟨st2, store2, ev2, res2⟩
        cases res2 with
        | error err => simp [step, h1, h2] at h
        | ok u2 =>
          simp [step, h1, h2] at h
          obtain ⟨-, -, g3, -⟩ := h
          subst g3
          rcases List.mem_cons.mp hf with hf | hf
          · subst hf
            exact List.mem_append.mpr (Or.inl (resolveObj_marks_field n st store
              r f st1 store1 ev1 v h1))
          · exact List.mem_append.mpr (Or.inr (ih st1 store1 r fs st2 store2
              ev2 u2 h2 f hf))

theorem runPosts_ok_trace :
    ∀ (names : List String) (store : Store) (r : Nat) (store' : Store)
      (ev : List Event) (u : Unit),
      runPosts store r names = (store', ev, Except.ok u) →
      ev = names.map (Event.hookCalled r) := by
  intro names
  induction names with
  | nil =>
    intro store r store' ev u h
    have hev : (runPosts store r ([] : List String)).2.1 = ev :=
      congrArg (fun t => t.2.1) h
    rw [← hev]
    rfl
  | cons name rest ih =>
    intro store r store' ev u h
    have hres : (runPosts store r (name :: rest)).2.2 = Except.ok u :=
      congrArg (fun t => t.2.2) h
    have hev : (runPosts store r (name :: rest)).2.1 = ev :=
      congrArg (fun t => t.2.1) h
    cases hobj : getObj store r with
    | none => simp [runPosts, hobj] at hres
    | some target =>
      by_cases hhas : pyHasattr target (pyReplace name POST_PREFIX) = true
      · cases hpost : lookupStr target.posts name with
        | none => simp [runPosts, hobj, hhas, hpost] at hres
        | some hook =>
          rcases hrec : runPosts (setObj store r { target with
              attrs := applyMuts hook.muts target.attrs }) r rest with
            ⟨storeR, evR, resR⟩
          cases resR with
          | error e => simp [runPosts, hobj, hhas, hpost, hrec] at hres
          | ok u2 =>
            rw [← hev]
            simp only [runPosts, hobj, hhas, hpost, hrec, if_true]
            rw [List.map_cons]
            simp only [List.cons.injEq, true_and]
            exact ih _ r storeR evR u2 hrec
      · have hhasF : pyHasattr target (pyReplace name POST_PREFIX) = false := by
          revert hhas
          cases pyHasattr target (pyReplace name POST_PREFIX) <;> simp
        simp [runPosts, hobj, hhasF] at hres

theorem getObj_map_eq {α : Type} (f : Object → α) :
    ∀ (s s' : Store), s.map f = s'.map f →
      ∀ r, (getObj s r).map f = (getObj s' r).map f := by
  intro s
  induction s with
  | nil =>
    intro s' h r
    cases s' with
    | nil => rfl
    | cons y rest' => simp at h
  | cons x rest ih =>
    intro s' h r
    cases s' with
    | nil => simp at h
    | cons y rest' =>
      simp at h
      obtain ⟨h1, h2⟩ := h
      cases r with
      | zero => simp [getObj, h1]
      | succ r => exact ih rest' h2 r

/-- C2: for a Resolvable Object, the post-process hooks run strictly
after all of the object's resolver fields (each field's completion
event — emitted only after its recursively resolved subtree settled
and the value was written back — lies in the prefix of the trace, and
the entire suffix is exactly the object's hooks in enumeration order,
called sequentially and, by construction of the model, with no
arguments); and before invoking a hook the engine checks that the
attribute named by stripping the hook prefix exists, failing with
`ResolverTargetAttrNotFound` otherwise (second clause). -/
theorem post_hooks_after_fields :
    (∀ (n : Nat) (st : EngState) (store : Store) (r : Nat) (o : Object)
      (st' : EngState) (store' : Store) (ev : List Event) (v' : PyVal),
      getObj store r = some o →
      resolve (n+1) st store (PyVal.obj r) = (st', store', ev, Except.ok v') →
      ∃ tF tH, ev = tF ++ tH ∧
        (∀ p ∈ o.resolvers, Event.fieldResolved r p.1 ∈ tF) ∧
        tH = (iter_over_object_post_methods o).map (Event.hookCalled r)) ∧
    (∀ (store : Store) (r : Nat) (target : Object) (name : String)
      (rest : List String),
      getObj store r = some target →
      pyHasattr target (pyReplace name POST_PREFIX) = false →
      runPosts store r (name :: rest)
        = (store, [], Except.error (Err.ResolverTargetAttrNotFound
            ("fail to run " ++ name ++ "(), attribute "
              ++ pyReplace name POST_PREFIX ++ " not found")))) := by
  constructor
  · intro n st store r o st' store' ev v' hobj h
    rcases h1 : step n st store
        (Call.resolveFields r (iter_over_object_resolvers o)) with
      ⟨st2, store2, ev2, res2⟩
    cases res2 with
    | error e => simp [resolve, step, is_acceptable_type, hobj, h1] at h
    | ok u =>
      cases hcur : getObj store2 r with
      | none => simp [resolve, step, is_acceptable_type, hobj, h1, hcur] at h
      | some target2 =>
        rcases h2 : runPosts store2 r (iter_over_object_post_methods target2) with
          ⟨store3, ev3, res3⟩
        cases res3 with
        | error e =>
          simp [resolve, step, is_acceptable_type, hobj, h1, hcur, h2] at h
        | ok u2 =>
          simp [resolve, step, is_acceptable_type, hobj, h1, hcur, h2] at h
          obtain ⟨-, -, g3, -⟩ := h
          subst g3
          refine ⟨ev2, ev3, rfl, ?_, ?_⟩
          · intro p hp
            exact resolveFields_complete n st store r
              (iter_over_object_resolvers o) st2 store2 ev2 u h1 p.1
              (List.mem_map_of_mem _ hp)
          · have hsh := (step_inv n st store _ st2 store2 ev2 _ h1).2.2.2.2.1
            have hmap := getObj_map_eq objShape store2 store hsh r
            rw [hcur, hobj] at hmap
            simp at hmap
            have hposts : target2.posts = o.posts := congrArg Prod.snd hmap
            rw [runPosts_ok_trace _ _ _ _ _ _ h2,
              iter_over_object_post_methods, iter_over_object_post_methods, hposts]
  · intro store r target name rest hobj hhas
    simp [runPosts, hobj, hhas]

def hookTotal : Hook :=
  { muts := [("total", PyVal.int 9)], ret := RVal.ret PyVal.none }

def objWithHook : Object :=
  { attrs := [("total", PyVal.int 0), ("x", PyVal.int 0)],
    resolvers := [("resolve_x", mScalar)],
    posts := [("post_total", hookTotal)] }

/-- Witness for C2: an object with one resolver field and one hook
produces a trace whose prefix holds the field-completion event and
whose suffix is exactly the hook call. -/
theorem post_hooks_after_fields_witness :
    ∃ tF tH,
      ([Event.resolverInvoked "resolve_x", Event.fieldResolved 0 "resolve_x",
        Event.hookCalled 0 "post_total"] : List Event) = tF ++ tH ∧
      (∀ p ∈ objWithHook.resolvers, Event.fieldResolved 0 p.1 ∈ tF) ∧
      tH = (iter_over_object_post_methods objWithHook).map (Event.hookCalled 0) :=
  post_hooks_after_fields.1 3 stEmpty [objWithHook] 0 objWithHook stEmpty
    [{ objWithHook with attrs := [("total", PyVal.int 9), ("x", PyVal.int 1)] }]
    [Event.resolverInvoked "resolve_x", Event.fieldResolved 0 "resolve_x",
     Event.hookCalled 0 "post_total"]
    (PyVal.obj 0) rfl rfl

/-! ## C10: hook return values are discarded -/

/-- Erase a hook's return value (keeping its self-mutation). -/
def eraseHook (h : Hook) : Hook := { h with ret := RVal.ret PyVal.none }

/-- Erase every hook return value of an object. -/
def eraseObj (o : Object) : Object :=
  { o with posts := o.posts.map (fun p => (p.1, eraseHook p.2)) }

/-- Erase every hook return value in the store. -/
def eraseRets (s : Store) : Store := s.map eraseObj

theorem lookupStr_map_snd {α β : Type} (g : α → β) :
    ∀ (l : List (String × α)) (k : String),
      lookupStr (l.map (fun p => (p.1, g p.2))) k = (lookupStr l k).map g := by
  intro l
  induction l with
  | nil => intro k; rfl
  | cons e rest ih =>
    intro k
    obtain ⟨k', v⟩ := e
    by_cases hk : k' = k
    · simp [lookupStr, hk]
    · simp [lookupStr, hk, ih]

theorem map_setObj (f : Object → Object) :
    ∀ (s : Store) (r : Nat) (o : Object),
      (setObj s r o).map f = setObj (s.map f) r (f o) := by
  intro s
  induction s with
  | nil => intro r o; rfl
  | cons x rest ih =>
    intro r o
    cases r with
    | zero => rfl
    | succ r => simp [setObj, ih]

/-- C10: post-process hooks are invoked synchronously and their return
values are discarded.  The behaviour of the post-processing loop — its
trace, its result, and the resulting store up to the (inert) stored
return values — depends only on the store with every hook return value
erased (first clause), so replacing any hook's returned value (for
example the coroutine an `async def` hook would return, which is hence
dropped without ever being executed) changes nothing observable; the
return is never awaited (the loop's trace consists of hook-call events
only, never an await event — second clause) and never written to any
attribute. -/
theorem hook_return_discarded :
    (∀ (names : List String) (store store₂ : Store) (r : Nat),
      eraseRets store = eraseRets store₂ →
      (runPosts store r names).2.1 = (runPosts store₂ r names).2.1 ∧
      (runPosts store r names).2.2 = (runPosts store₂ r names).2.2 ∧
      eraseRets (runPosts store r names).1
        = eraseRets (runPosts store₂ r names).1) ∧
    (∀ (names : List String) (store : Store) (r : Nat),
      ∀ e ∈ (runPosts store r names).2.1,
        ∃ rr hh, e = Event.hookCalled rr hh) := by
  constructor
  · intro names
    induction names with
    | nil =>
      intro store store₂ r hsame
      exact ⟨rfl, rfl, hsame⟩
    | cons name rest ih =>
      intro store store₂ r hsame
      have hsame' : store.map eraseObj = store₂.map eraseObj := hsame
      have hmap := getObj_map_eq eraseObj store store₂ hsame' r
      cases ho1 : getObj store r with
      | none =>
        cases ho2 : getObj store₂ r with
        | none => simp [runPosts, ho1, ho2, hsame]
        | some t₂ =>
          rw [ho1, ho2] at hmap
          simp at hmap
      | some t =>
        cases ho2 : getObj store₂ r with
        | none =>
          rw [ho1, ho2] at hmap
          simp at hmap
        | some t₂ =>
          rw [ho1, ho2] at hmap
          simp at hmap
          have hattrs0 : (eraseObj t).attrs = (eraseObj t₂).attrs :=
            congrArg Object.attrs hmap
          have hattrs : t.attrs = t₂.attrs := hattrs0
          have hresv0 : (eraseObj t).resolvers = (eraseObj t₂).resolvers :=
            congrArg Object.resolvers hmap
          have hresv : t.resolvers = t₂.resolvers := hresv0
          have hposts0 : (eraseObj t).posts = (eraseObj t₂).posts :=
            congrArg Object.posts hmap
          have hposts : t.posts.map (fun p => (p.1, eraseHook p.2))
              = t₂.posts.map (fun p => (p.1, eraseHook p.2)) := hposts0
          have hlk : ∀ k, (lookupStr t.posts k).map eraseHook
              = (lookupStr t₂.posts k).map eraseHook := by
            intro k
            rw [← lookupStr_map_snd, ← lookupStr_map_snd, hposts]
          have hhas : pyHasattr t (pyReplace name POST_PREFIX)
              = pyHasattr t₂ (pyReplace name POST_PREFIX) := by
            rw [pyHasattr, pyHasattr, hattrs, hresv]
            have h1 := congrArg Option.isSome (hlk (pyReplace name POST_PREFIX))
            simp at h1
            rw [h1]
          by_cases hb : pyHasattr t₂ (pyReplace name POST_PREFIX) = true
          · have hbt : pyHasattr t (pyReplace name POST_PREFIX) = true :=
              hhas.trans hb
            cases hp1 : lookupStr t.posts name with
            | none =>
              cases hp2 : lookupStr t₂.posts name with
              | none => simp [runPosts, ho1, ho2, hbt, hb, hp1, hp2, hsame]
              | some hk2 =>
                have := hlk name
                rw [hp1, hp2] at this
                simp at this
            | some hk1 =>
              cases hp2 : lookupStr t₂.posts name with
              | none =>
                have := hlk name
                rw [hp1, hp2] at this
                simp at this
              | some hk2 =>
                have hkk : eraseHook hk1 = eraseHook hk2 := by
                  have := hlk name
                  rw [hp1, hp2] at this
                  simpa using this
                have hmuts0 : (eraseHook hk1).muts = (eraseHook hk2).muts :=
                  congrArg Hook.muts hkk
                have hmuts : hk1.muts = hk2.muts := hmuts0
                have hobj' : eraseObj { t with
                      attrs := applyMuts hk1.muts t.attrs }
                    = eraseObj { t₂ with
                      attrs := applyMuts hk2.muts t₂.attrs } := by
                  simp only [eraseObj, Object.mk.injEq]
                  exact ⟨by rw [hattrs, hmuts], hresv, hposts⟩
                have hset : eraseRets (setObj store r { t with
                      attrs := applyMuts hk1.muts t.attrs })
                    = eraseRets (setObj store₂ r { t₂ with
                      attrs := applyMuts hk2.muts t₂.attrs }) := by
                  show (setObj store r _).map eraseObj
                    = (setObj store₂ r _).map eraseObj
                  rw [map_setObj, map_setObj, hsame', hobj']
                have ihres := ih _ _ r hset
                obtain ⟨q1, q2, q3⟩ := ihres
                refine ⟨?_, ?_, ?_⟩
                · simp only [runPosts, ho1, ho2, hbt, hb, hp1, hp2, if_true]
                  simpa using q1
                · simp only [runPosts, ho1, ho2, hbt, hb, hp1, hp2, if_true]
                  simpa using q2
                · simp only [runPosts, ho1, ho2, hbt, hb, hp1, hp2, if_true]
                  simpa using q3
          · have hbf : pyHasattr t₂ (pyReplace name POST_PREFIX) = false := by
              revert hb
              cases pyHasattr t₂ (pyReplace name POST_PREFIX) <;> simp
            have hbtf : pyHasattr t (pyReplace name POST_PREFIX) = false :=
              hhas.trans hbf
            simp [runPosts, ho1, ho2, hbtf, hbf, hsame]
  · intro names store r e he
    rcases hr : runPosts store r names with ⟨s1, e1, r1⟩
    obtain ⟨-, b2, -⟩ := runPosts_inv names store r s1 e1 r1 hr
    have he' : e ∈ e1 := by
      rw [hr] at he
      exact he
    exact b2 e he'

def hookAsync : Hook :=
  { muts := [("total", PyVal.int 9)],
    ret := RVal.coro (RVal.ret (PyVal.int 99)) }

def objHookSync : Object :=
  { attrs := [("total", PyVal.int 0)], resolvers := [],
    posts := [("post_total", hookTotal)] }

def objHookAsync : Object :=
  { attrs := [("total", PyVal.int 0)], resolvers := [],
    posts := [("post_total", hookAsync)] }

/-- Witness for C10: a hook returning a coroutine behaves exactly like
the same hook returning nothing — same trace, same result, same
attribute values. -/
theorem hook_return_discarded_witness :
    (runPosts [objHookSync] 0 ["post_total"]).2.1
      = (runPosts [objHookAsync] 0 ["post_total"]).2.1 ∧
    (runPosts [objHookSync] 0 ["post_total"]).2.2
      = (runPosts [objHookAsync] 0 ["post_total"]).2.2 ∧
    eraseRets (runPosts [objHookSync] 0 ["post_total"]).1
      = eraseRets (runPosts [objHookAsync] 0 ["post_total"]).1 :=
  hook_return_discarded.1 ["post_total"] [objHookSync] [objHookAsync] 0 rfl


/-! ## C1: instance sharing across a whole invocation -/

theorem countCreated_append (a b : List Event) (k : String) :
    countCreated (a ++ b) k = countCreated a k + countCreated b k := by
  induction a with
  | nil => simp [countCreated]
  | cons e rest ih =>
    cases e with
    | loaderCreated k2 i =>
      show (if k2 = k then 1 else 0) + countCreated (rest ++ b) k
          = ((if k2 = k then 1 else 0) + countCreated rest k) + countCreated b k
      rw [ih]
      omega
    | resolverInvoked f => exact ih
    | awaited => exact ih
    | fieldResolved r f => exact ih
    | hookCalled r hh => exact ih

theorem countCreated_no_created (ev : List Event) (k : String)
    (h : ∀ e ∈ ev, ∀ i, e ≠ Event.loaderCreated k i) : countCreated ev k = 0 := by
  induction ev with
  | nil => rfl
  | cons e rest ih =>
    have hrest := ih fun e2 he2 => h e2 (List.mem_cons_of_mem _ he2)
    cases e with
    | loaderCreated k2 i =>
      have hne : ¬ (k2 = k) := by
        intro hk
        exact h _ (List.mem_cons_self _ _) i (by rw [hk])
      simp [countCreated, hne, hrest]
    | resolverInvoked f => simpa [countCreated] using hrest
    | awaited => simpa [countCreated] using hrest
    | fieldResolved r f => simpa [countCreated] using hrest
    | hookCalled r hh => simpa [countCreated] using hrest

theorem execParams_created_cached :
    ∀ (ps : List Param) (st st' : EngState) (ev : List Event)
      (binds : List (String × LoaderInst)),
      execParams st ps = (st', ev, Except.ok binds) →
      ∀ k, 1 ≤ countCreated ev k → (lookupStr st'.ctx k).isSome = true := by
  intro ps
  induction ps with
  | nil =>
    intro st st' ev binds h k hk
    simp [execParams] at h
    obtain ⟨h1, h2, h3⟩ := h
    subst h2
    simp [countCreated] at hk
  | cons p ps ih =>
    intro st st' ev binds h k hk
    cases hdep : p.dep with
    | none =>
      rw [execParams, hdep] at h
      exact ih st st' ev binds h k hk
    | some d =>
      cases hlook : lookupStr st.ctx (cacheKey d) with
      | some hit =>
        rcases hrec : execParams st ps with ⟨stR, evR, resR⟩
        cases resR with
        | ok binds2 =>
          simp [execParams, hdep, hlook, hrec] at h
          obtain ⟨h1, h2, h3⟩ := h
          subst h1; subst h2
          exact ih st stR evR binds2 hrec k hk
        | error e =>
          simp [execParams, hdep, hlook, hrec] at h
      | none =>
        cases hcls : d.isClass with
        | true =>
          rcases hass : assignFields (cacheKey d)
              ((lookupCls st.loader_filters d).getD []) ⟨st.nextId, d, []⟩
              d.classFields with ⟨inst, resA⟩
          cases resA with
          | error e =>
            simp [execParams, hdep, hlook, hcls, hass] at h
          | ok u =>
            rcases hrec : execParams
                { st with ctx := (cacheKey d, inst) :: st.ctx,
                          nextId := st.nextId + 1 } ps with ⟨stR, evR, resR⟩
            cases resR with
            | error e =>
              simp [execParams, hdep, hlook, hcls, hass, hrec] at h
            | ok binds2 =>
              simp [execParams, hdep, hlook, hcls, hass, hrec] at h
              obtain ⟨h1, h2, h3⟩ := h
              subst h1; subst h2
              obtain ⟨-, -, -, -, -, a6, -, -, -, -⟩ :=
                execParams_inv ps _ stR evR _ hrec
              have a6' : ∀ kk l, lookupStr ((cacheKey d, inst) :: st.ctx) kk
                  = some l → lookupStr stR.ctx kk = some l := a6
              by_cases hkk : cacheKey d = k
              · have hl : lookupStr ((cacheKey d, inst) :: st.ctx) (cacheKey d)
                    = some inst := by
                  rw [lookupStr_cons, if_pos rfl]
                have hpers := a6' (cacheKey d) inst hl
                rw [← hkk, hpers]
                rfl
              · have hk2 : 1 ≤ countCreated evR k := by
                  simpa [countCreated, hkk] using hk
                exact ih _ stR evR binds2 hrec k hk2
        | false =>
          rcases hrec : execParams
              { st with ctx := (cacheKey d, ⟨st.nextId, d, []⟩) :: st.ctx,
                        nextId := st.nextId + 1 } ps with ⟨stR, evR, resR⟩
          cases resR with
          | error e =>
            simp [execParams, hdep, hlook, hcls, hrec] at h
          | ok binds2 =>
            simp [execParams, hdep, hlook, hcls, hrec] at h
            obtain ⟨h1, h2, h3⟩ := h
            subst h1; subst h2
            obtain ⟨-, -, -, -, -, a6, -, -, -, -⟩ :=
              execParams_inv ps _ stR evR _ hrec
            have a6' : ∀ kk l,
                lookupStr ((cacheKey d, (⟨st.nextId, d, []⟩ : LoaderInst))
                    :: st.ctx) kk = some l →
                lookupStr stR.ctx kk = some l := a6
            by_cases hkk : cacheKey d = k
            · have hl : lookupStr
                  ((cacheKey d, (⟨st.nextId, d, []⟩ : LoaderInst)) :: st.ctx)
                  (cacheKey d) = some ⟨st.nextId, d, []⟩ := by
                rw [lookupStr_cons, if_pos rfl]
              have hpers := a6' (cacheKey d) ⟨st.nextId, d, []⟩ hl
              rw [← hkk, hpers]
              rfl
            · have hk2 : 1 ≤ countCreated evR k := by
                simpa [countCreated, hkk] using hk
              exact ih _ stR evR binds2 hrec k hk2

/-- The cache discipline of one engine run from `st` to `st'` with
trace `ev`: cached entries persist with their values (no eviction, no
replacement); an already-cached key causes no construction anywhere in
the run; on a successful run (`ok`), every key that was constructed
for is cached by the end; and every key is constructed for at most
once. -/
def CacheRunInv (st st' : EngState) (ev : List Event) (ok : Prop) : Prop :=
  (∀ k l, lookupStr st.ctx k = some l → lookupStr st'.ctx k = some l) ∧
  (∀ k, (lookupStr st.ctx k).isSome = true → countCreated ev k = 0) ∧
  (ok → ∀ k, 1 ≤ countCreated ev k → (lookupStr st'.ctx k).isSome = true) ∧
  (∀ k, countCreated ev k ≤ 1)

theorem cacheRunInv_refl (st : EngState) (ev : List Event) (o : Prop)
    (hz : ∀ k, countCreated ev k = 0) : CacheRunInv st st ev o := by
  refine ⟨fun k l hk => hk, fun k _ => hz k, ?_, fun k => by rw [hz k]; omega⟩
  intro _ k hk
  rw [hz k] at hk
  omega

theorem cacheRunInv_mono {st st' : EngState} {ev : List Event} {o o2 : Prop}
    (h : CacheRunInv st st' ev o) (f : o2 → o) : CacheRunInv st st' ev o2 :=
  ⟨h.1, h.2.1, fun ho => h.2.2.1 (f ho), h.2.2.2⟩

theorem cacheRunInv_extend {st st' : EngState} {ev ev0 : List Event} {o : Prop}
    (h : CacheRunInv st st' ev o) (hz : ∀ k, countCreated ev0 k = 0) :
    CacheRunInv st st' (ev ++ ev0) o := by
  obtain ⟨p, z, b, c⟩ := h
  refine ⟨p, ?_, ?_, ?_⟩
  · intro k hk
    rw [countCreated_append, z k hk, hz k]
  · intro ho k hk
    rw [countCreated_append, hz k] at hk
    exact b ho k (by omega)
  · intro k
    rw [countCreated_append, hz k]
    have := c k
    omega

theorem cacheRunInv_comp {st st1 st2 : EngState} {ev1 ev2 : List Event}
    {o1 o2 : Prop}
    (h1 : CacheRunInv st st1 ev1 o1) (ho1 : o1)
    (h2 : CacheRunInv st1 st2 ev2 o2) :
    CacheRunInv st st2 (ev1 ++ ev2) o2 := by
  obtain ⟨p1, z1, b1, c1⟩ := h1
  obtain ⟨p2, z2, b2, c2⟩ := h2
  refine ⟨fun k l hk => p2 k l (p1 k l hk), ?_, ?_, ?_⟩
  · intro k hk
    rw [countCreated_append]
    have hz1 := z1 k hk
    have hz2 : countCreated ev2 k = 0 := by
      apply z2
      rcases Option.isSome_iff_exists.mp hk with ⟨l, hl⟩
      rw [p1 k l hl]
      rfl
    omega
  · intro ho k hk
    rw [countCreated_append] at hk
    by_cases h1c : 1 ≤ countCreated ev1 k
    · have hc := b1 ho1 k h1c
      rcases Option.isSome_iff_exists.mp hc with ⟨l, hl⟩
      rw [p2 k l hl]
      rfl
    · exact b2 ho k (by omega)
  · intro k
    rw [countCreated_append]
    by_cases h1c : 1 ≤ countCreated ev1 k
    · have hc := b1 ho1 k h1c
      have hz2 := z2 k hc
      have := c1 k
      omega
    · have := c2 k
      omega

theorem exec_method_cache (st : EngState) (m : Method) (st' : EngState)
    (ev : List Event) (res : Except Err RVal)
    (h : exec_method st m = (st', ev, res)) :
    CacheRunInv st st' ev (∃ rv, res = Except.ok rv) := by
  rw [exec_method] at h
  rcases hp : execParams st m.params with ⟨stE, evE, resE⟩
  rw [hp] at h
  obtain ⟨a1, a2, a3, a4, a5, a6, a7, a8, a9, a10⟩ :=
    execParams_inv m.params st stE evE resE hp
  cases resE with
  | ok bs =>
    simp at h
    obtain ⟨h1, h2, h3⟩ := h
    subst h1; subst h2
    exact ⟨a6, a7,
      fun _ k hk => execParams_created_cached m.params st stE evE bs hp k hk, a8⟩
  | error e =>
    simp at h
    obtain ⟨h1, h2, h3⟩ := h
    subst h1; subst h2; subst h3
    refine ⟨a6, a7, ?_, a8⟩
    rintro ⟨rv, hrv⟩
    simp at hrv


theorem cacheRunInv_congr {st st' : EngState} {ev ev2 : List Event} {o : Prop}
    (h : CacheRunInv st st' ev o) (he : ev = ev2) : CacheRunInv st st' ev2 o :=
  he ▸ h

theorem step_cache_inv :
    ∀ (n : Nat) (st : EngState) (store : Store) (c : Call)
      (st' : EngState) (store' : Store) (ev : List Event)
      (res : Except Err PyVal),
      step n st store c = (st', store', ev, res) →
      CacheRunInv st st' ev (∃ v, res = Except.ok v) := by
  intro n
  induction n with
  | zero =>
    intro st store c st' store' ev res h
    simp [step] at h
    obtain ⟨h1, -, h3, h4⟩ := h
    subst h1; subst h3; subst h4
    exact cacheRunInv_refl st [] _ (fun k => rfl)
  | succ n ih =>
    intro st store c st' store' ev res h
    cases c with
    | resolve v =>
      cases v with
      | none =>
        simp [step, is_acceptable_type] at h
        obtain ⟨h1, -, h3, h4⟩ := h
        subst h1; subst h3; subst h4
        exact cacheRunInv_refl st [] _ (fun k => rfl)
      | pybool b =>
        simp [step, is_acceptable_type] at h
        obtain ⟨h1, -, h3, h4⟩ := h
        subst h1; subst h3; subst h4
        exact cacheRunInv_refl st [] _ (fun k => rfl)
      | int i =>
        simp [step, is_acceptable_type] at h
        obtain ⟨h1, -, h3, h4⟩ := h
        subst h1; subst h3; subst h4
        exact cacheRunInv_refl st [] _ (fun k => rfl)
      | str s =>
        simp [step, is_acceptable_type] at h
        obtain ⟨h1, -, h3, h4⟩ := h
        subst h1; subst h3; subst h4
        exact cacheRunInv_refl st [] _ (fun k => rfl)
      | pylist es =>
        rcases h1 : step n st store (Call.resolveElems es) with ⟨st1, store1, ev1, res1⟩
        have hI := ih st store (Call.resolveElems es) st1 store1 ev1 res1 h1
        cases res1 with
        | error e =>
          simp [step, h1] at h
          obtain ⟨g1, -, g3, g4⟩ := h
          subst g1; subst g3; subst g4
          exact hI
        | ok u =>
          simp [step, h1, is_acceptable_type] at h
          obtain ⟨g1, -, g3, g4⟩ := h
          subst g1; subst g3; subst g4
          exact cacheRunInv_mono hI (fun _ => ⟨u, rfl⟩)
      | pytuple es =>
        rcases h1 : step n st store (Call.resolveElems es) with ⟨st1, store1, ev1, res1⟩
        have hI := ih st store (Call.resolveElems es) st1 store1 ev1 res1 h1
        cases res1 with
        | error e =>
          simp [step, h1] at h
          obtain ⟨g1, -, g3, g4⟩ := h
          subst g1; subst g3; subst g4
          exact hI
        | ok u =>
          simp [step, h1, is_acceptable_type] at h
          obtain ⟨g1, -, g3, g4⟩ := h
          subst g1; subst g3; subst g4
          exact cacheRunInv_mono hI (fun _ => ⟨u, rfl⟩)
      | obj r =>
        cases hobj : getObj store r with
        | none =>
          simp [step, is_acceptable_type, hobj] at h
          obtain ⟨g1, -, g3, g4⟩ := h
          subst g1; subst g3; subst g4
          exact cacheRunInv_refl st [] _ (fun k => rfl)
        | some target =>
          rcases h1 : step n st store
              (Call.resolveFields r (iter_over_object_resolvers target)) with
            ⟨st2, store2, ev2, res2⟩
          have hI := ih st store _ st2 store2 ev2 res2 h1
          cases res2 with
          | error e =>
            simp [step, is_acceptable_type, hobj, h1] at h
            obtain ⟨g1, -, g3, g4⟩ := h
            subst g1; subst g3; subst g4
            exact hI
          | ok u =>
            cases hcur : getObj store2 r with
            | none =>
              simp [step, is_acceptable_type, hobj, h1, hcur] at h
              obtain ⟨g1, -, g3, g4⟩ := h
              subst g1; subst g3; subst g4
              exact cacheRunInv_mono hI
                (fun ho => absurd ho (by rintro ⟨v, hv⟩; simp at hv))
            | some target2 =>
              rcases h2 : runPosts store2 r (iter_over_object_post_methods target2)
                with ⟨store3, ev3, res3⟩
              obtain ⟨-, b2, -⟩ := runPosts_inv _ _ _ _ _ _ h2
              have hz3 : ∀ k, countCreated ev3 k = 0 := by
                intro k
                apply countCreated_no_created
                intro e he i
                obtain ⟨rr, hh, hE⟩ := b2 e he
                rw [hE]
                simp
              cases res3 with
              | error e =>
                simp [step, is_acceptable_type, hobj, h1, hcur, h2] at h
                obtain ⟨g1, -, g3, g4⟩ := h
                subst g1; subst g3; subst g4
                exact cacheRunInv_mono
                  (cacheRunInv_congr (cacheRunInv_extend hI hz3) (by simp))
                  (fun ho => absurd ho (by rintro ⟨v, hv⟩; simp at hv))
              | ok u2 =>
                simp [step, is_acceptable_type, hobj, h1, hcur, h2] at h
                obtain ⟨g1, -, g3, g4⟩ := h
                subst g1; subst g3; subst g4
                exact cacheRunInv_mono
                  (cacheRunInv_congr (cacheRunInv_extend hI hz3) (by simp))
                  (fun _ => ⟨u, rfl⟩)
    | resolveElems es =>
      cases es with
      | nil =>
        simp [step] at h
        obtain ⟨g1, -, g3, g4⟩ := h
        subst g1; subst g3; subst g4
        exact cacheRunInv_refl st [] _ (fun k => rfl)
      | cons e es =>
        rcases h1 : step n st store (Call.resolve e) with ⟨st1, store1, ev1, res1⟩
        have hI1 := ih st store _ st1 store1 ev1 res1 h1
        cases res1 with
        | error err =>
          simp [step, h1] at h
          obtain ⟨g1, -, g3, g4⟩ := h
          subst g1; subst g3; subst g4
          exact hI1
        | ok u =>
          rcases h2 : step n st1 store1 (Call.resolveElems es) with
            ⟨st2, store2, ev2, res2⟩
          have hI2 := ih st1 store1 _ st2 store2 ev2 res2 h2
          simp [step, h1, h2] at h
          obtain ⟨g1, -, g3, g4⟩ := h
          subst g1; subst g3; subst g4
          exact cacheRunInv_comp hI1 ⟨u, rfl⟩ hI2
    | resolveFields r fs =>
      cases fs with
      | nil =>
        simp [step] at h
        obtain ⟨g1, -, g3, g4⟩ := h
        subst g1; subst g3; subst g4
        exact cacheRunInv_refl st [] _ (fun k => rfl)
      | cons f fs =>
        rcases h1 : step n st store (Call.resolveObj r f) with ⟨st1, store1, ev1, res1⟩
        have hI1 := ih st store _ st1 store1 ev1 res1 h1
        cases res1 with
        | error err =>
          simp [step, h1] at h
          obtain ⟨g1, -, g3, g4⟩ := h
          subst g1; subst g3; subst g4
          exact hI1
        | ok u =>
          rcases h2 : step n st1 store1 (Call.resolveFields r fs) with
            ⟨st2, store2, ev2, res2⟩
          have hI2 := ih st1 store1 _ st2 store2 ev2 res2 h2
          simp [step, h1, h2] at h
          obtain ⟨g1, -, g3, g4⟩ := h
          subst g1; subst g3; subst g4
          exact cacheRunInv_comp hI1 ⟨u, rfl⟩ hI2
    | resolveObj r field =>
      cases hobj : getObj store r with
      | none =>
        simp [step, hobj] at h
        obtain ⟨g1, -, g3, g4⟩ := h
        subst g1; subst g3; subst g4
        exact cacheRunInv_refl st [] _ (fun k => rfl)
      | some target =>
        cases hres : lookupStr target.resolvers field with
        | none =>
          simp [step, hobj, hres] at h
          obtain ⟨g1, -, g3, g4⟩ := h
          subst g1; subst g3; subst g4
          exact cacheRunInv_refl st [] _ (fun k => rfl)
        | some item =>
          rcases hexec : exec_method st item with ⟨st1, evP, resE⟩
          have hE := exec_method_cache st item st1 evP resE hexec
          cases resE with
          | error e =>
            simp [step, hobj, hres, hexec] at h
            obtain ⟨g1, -, g3, g4⟩ := h
            subst g1; subst g3; subst g4
            exact cacheRunInv_mono hE
              (fun ho => absurd ho (by rintro ⟨v, hv⟩; simp at hv))
          | ok val =>
            have hok : ∃ rv, (Except.ok val : Except Err RVal) = Except.ok rv :=
              ⟨val, rfl⟩
            have hzInv : ∀ k,
                countCreated [Event.resolverInvoked field] k = 0 := fun k => rfl
            by_cases hhas : pyHasattr target (pyReplace field PREFIX) = true
            · by_cases hens : (st1.ensure_type && item.annots.isEmpty) = true
              · simp [step, hobj, hres, hexec, hhas, hens] at h
                obtain ⟨g1, -, g3, g4⟩ := h
                subst g1; subst g3; subst g4
                exact cacheRunInv_mono
                  (cacheRunInv_congr (cacheRunInv_extend hE hzInv) (by simp))
                  (fun ho => absurd ho (by rintro ⟨v, hv⟩; simp at hv))
              · have hensF : (st1.ensure_type && item.annots.isEmpty) = false := by
                  revert hens
                  cases (st1.ensure_type && item.annots.isEmpty) <;> simp
                rcases hawait : awaitAll val with ⟨evA, v₀⟩
                have hzA : ∀ k, countCreated evA k = 0 := by
                  intro k
                  apply countCreated_no_created
                  intro e he i
                  have := awaitAll_events val e (by rw [hawait]; exact he)
                  rw [this]
                  simp
                rcases h2 : step n st1 store (Call.resolve v₀) with
                  ⟨st2, store2, ev2, res2⟩
                have hI2 := ih st1 store _ st2 store2 ev2 res2 h2
                have hq : CacheRunInv st st2
                    (((evP ++ [Event.resolverInvoked field]) ++ evA) ++ ev2)
                    (∃ v, res2 = Except.ok v) :=
                  cacheRunInv_comp
                    (cacheRunInv_extend (cacheRunInv_extend hE hzInv) hzA)
                    hok hI2
                cases res2 with
                | error e =>
                  simp [step, hobj, hres, hexec, hhas, hensF, hawait, h2] at h
                  obtain ⟨g1, -, g3, g4⟩ := h
                  subst g1; subst g3; subst g4
                  exact cacheRunInv_mono (cacheRunInv_congr hq (by simp))
                    (fun ho => absurd ho (by rintro ⟨v, hv⟩; simp at hv))
                | ok v1 =>
                  cases hcur : getObj store2 r with
                  | none =>
                    simp [step, hobj, hres, hexec, hhas, hensF, hawait, h2,
                      hcur] at h
                    obtain ⟨g1, -, g3, g4⟩ := h
                    subst g1; subst g3; subst g4
                    exact cacheRunInv_mono (cacheRunInv_congr hq (by simp))
                      (fun ho => absurd ho (by rintro ⟨v, hv⟩; simp at hv))
                  | some tcur =>
                    simp [step, hobj, hres, hexec, hhas, hensF, hawait, h2,
                      hcur] at h
                    obtain ⟨g1, -, g3, g4⟩ := h
                    subst g1; subst g3; subst g4
                    have hzF : ∀ k,
                        countCreated [Event.fieldResolved r field] k = 0 :=
                      fun k => rfl
                    exact cacheRunInv_mono
                      (cacheRunInv_congr (cacheRunInv_extend hq hzF) (by simp))
                      (fun _ => ⟨v1, rfl⟩)
            · have hhasF : pyHasattr target (pyReplace field PREFIX) = false := by
                revert hhas
                cases pyHasattr target (pyReplace field PREFIX) <;> simp
              simp [step, hobj, hres, hexec, hhasF] at h
              obtain ⟨g1, -, g3, g4⟩ := h
              subst g1; subst g3; subst g4
              exact cacheRunInv_mono
                (cacheRunInv_congr (cacheRunInv_extend hE hzInv) (by simp))
                (fun ho => absurd ho (by rintro ⟨v, hv⟩; simp at hv))


/-- C1: within one top-level resolve call, at most one batching-unit
instance is constructed per definition, and every resolver parameter
declaring that definition receives the same instance.  Clause (1)
establishes the whole-run cache discipline over the full
`step`/`resolve` recursion — cache entries persist with their values
for the rest of the call (no eviction or replacement), an
already-cached key causes no further construction anywhere in the
remaining run, and every `module.name` key is constructed for at most
once; clause (2) specialises this to a complete top-level call through
the fresh Invocation Context: at most one construction per definition
per invocation, across all sibling resolvers of the whole object
graph.  Clause (3) gives the provisioning pass itself: parameters
with the same key bind the identical instance, and every bound
instance is the one cached under its definition's key — with (1)'s
persistence, the instance any later sibling's provisioning finds under
that key is this same one.  Clause (4): same-named definitions from
different modules have distinct keys, so they never collide; clause
(5): the resolver body is invoked only after provisioning has returned
with every dependency bound and cached. -/
theorem loader_instance_shared_per_invocation :
    (∀ (n : Nat) (st : EngState) (store : Store) (c : Call)
        (st' : EngState) (store' : Store) (ev : List Event)
        (res : Except Err PyVal),
      step n st store c = (st', store', ev, res) →
      (∀ k l, lookupStr st.ctx k = some l → lookupStr st'.ctx k = some l) ∧
      (∀ k, (lookupStr st.ctx k).isSome = true → countCreated ev k = 0) ∧
      (∀ k, countCreated ev k ≤ 1)) ∧
    (∀ (lf : List (LoaderDef × List (String × PyVal))) (et : Bool)
        (fuel nid : Nat) (store : Store) (v : PyVal) (st' : EngState)
        (store' : Store) (ev : List Event) (res : Except Err PyVal),
      resolveEntry lf et fuel nid store v = (st', store', ev, res) →
      ∀ k, countCreated ev k ≤ 1) ∧
    (∀ (st : EngState) (ps : List Param) (st' : EngState) (ev : List Event)
        (binds : List (String × LoaderInst)),
      CacheWF st → execParams st ps = (st', ev, Except.ok binds) →
      (∀ b₁ ∈ binds, ∀ b₂ ∈ binds,
          cacheKey b₁.2.defn = cacheKey b₂.2.defn → b₁.2 = b₂.2) ∧
      (∀ b ∈ binds, lookupStr st'.ctx (cacheKey b.2.defn) = some b.2) ∧
      CacheWF st') ∧
    (∀ d₁ d₂ : LoaderDef, d₁.name = d₂.name → d₁.module ≠ d₂.module →
        cacheKey d₁ ≠ cacheKey d₂) ∧
    (∀ (st : EngState) (m : Method) (st₂ : EngState) (ev₂ : List Event)
        (rv : RVal),
      exec_method st m = (st₂, ev₂, Except.ok rv) →
      ∃ bs, execParams st m.params = (st₂, ev₂, Except.ok bs) ∧
        rv = m.body (bs.map (fun b => b.2))) := by
  refine ⟨?_, ?_, ?_, cacheKey_ne_of_module_ne, ?_⟩
  · intro n st store c st' store' ev res h
    obtain ⟨p, z, b, cb⟩ := step_cache_inv n st store c st' store' ev res h
    exact ⟨p, z, cb⟩
  · intro lf et fuel nid store v st' store' ev res h
    obtain ⟨-, -, -, cb⟩ := step_cache_inv fuel (Resolver.init lf et nid) store
      (Call.resolve v) st' store' ev res h
    exact cb
  · intro st ps st' ev binds hwf h
    obtain ⟨a1, a2, a3, a4, a5, a6, a7, a8, a9, a10⟩ :=
      execParams_inv ps st st' ev _ h
    obtain ⟨hwf', hbind⟩ := a9 hwf
    refine ⟨?_, hbind _ rfl, hwf'⟩
    intro b₁ h₁ b₂ h₂ hk
    have l₁ := hbind _ rfl b₁ h₁
    have l₂ := hbind _ rfl b₂ h₂
    rw [hk] at l₁
    rw [l₁] at l₂
    injection l₂
  · intro st m st₂ ev₂ rv hm
    rw [exec_method] at hm
    rcases hp : execParams st m.params with ⟨stE, evE, resE⟩
    rw [hp] at hm
    cases resE with
    | ok bs =>
      simp at hm
      obtain ⟨hm1, hm2, hm3⟩ := hm
      subst hm1; subst hm2
      exact ⟨bs, rfl, hm3.symm⟩
    | error e => simp at hm

def mDepA : Method :=
  { params := [⟨"loader", some dShared⟩], annots := [],
    body := fun _ => RVal.ret PyVal.none }

def mDepB : Method :=
  { params := [⟨"loader", some dShared⟩], annots := [],
    body := fun _ => RVal.ret PyVal.none }

def objTwoSiblings : Object :=
  { attrs := [("a", PyVal.none), ("b", PyVal.none)],
    resolvers := [("resolve_a", mDepA), ("resolve_b", mDepB)], posts := [] }

def stTwoSiblings : EngState :=
  { ctx := [(cacheKey dShared, ⟨0, dShared, []⟩)], loader_filters := [],
    ensure_type := false, nextId := 1 }

/-- Witness for C1: a whole top-level call over an object whose two
sibling resolver fields both declare the same definition constructs
exactly one instance (its trace holds a single construction event, and
the bound is met), and two same-key parameters of one provisioning
pass bind the identical instance. -/
theorem loader_instance_shared_per_invocation_witness :
    countCreated
      [Event.loaderCreated (cacheKey dShared) 0,
       Event.resolverInvoked "resolve_a", Event.fieldResolved 0 "resolve_a",
       Event.resolverInvoked "resolve_b", Event.fieldResolved 0 "resolve_b"]
      (cacheKey dShared) ≤ 1 ∧
    (("p", instShared) : String × LoaderInst).2
      = (("q", instShared) : String × LoaderInst).2 := by
  have h := loader_instance_shared_per_invocation
  constructor
  · exact h.2.1 [] false 8 0 [objTwoSiblings] (PyVal.obj 0) stTwoSiblings
      [objTwoSiblings]
      [Event.loaderCreated (cacheKey dShared) 0,
       Event.resolverInvoked "resolve_a", Event.fieldResolved 0 "resolve_a",
       Event.resolverInvoked "resolve_b", Event.fieldResolved 0 "resolve_b"]
      (Except.ok (PyVal.obj 0)) rfl (cacheKey dShared)
  · have h3 := h.2.2.1 stEmpty psShared stShared
      [Event.loaderCreated (cacheKey dShared) 0] bindsShared
      ⟨by simp [stEmpty, Resolver.init], by simp [stEmpty, Resolver.init]⟩ rfl
    exact h3.1 _ (by simp [bindsShared]) _ (by simp [bindsShared]) rfl

end PR
